import Mathlib

/-!
Verification of the `pointillist` GIF pipeline (`src/main.rs`).

The program converts an animated GIF into a pointillist-style GIF:
`extract_gif_frames` decodes RGBA frames, `convert_to_dots` aggregates
`block_size × block_size` pixel blocks into average-intensity cells,
and `write_circles_gif` rasterizes each cell as a filled circle and
encodes the result.

Modelling conventions.

* Machine integers (`u8`, `u16`, `u32`, `usize`) are modelled as `ℕ`,
  with explicit `% 2^16` / `% 2^32` at the places where the source
  performs a narrowing `as u16` cast or `u32` wrap-around can occur.
* The source performs its geometric arithmetic in `f32`.  Here that
  arithmetic is modelled exactly: the radius `r = val / max_value.max(1)
  * max_radius` is the exact rational `radius`, and the pixel test
  `dx*dx + dy*dy <= r*r` and the bounding-box `floor`/`ceil` clamps are
  expressed with denominator-cleared integer arithmetic so that they are
  kernel-computable.  The lemmas `bbox_lo_eq_floor`, `bbox_hi_eq_ceil`
  and `hits_iff_in_circle` below prove that these integer forms are
  exactly the `⌊·⌋`/`⌈·⌉`/`≤` formulas written in the source.
* `f32::sqrt().round()` in `human_perceived_brightness` is modelled as
  the exactly-rounded square root `ratSqrtRound`; the lemma
  `ratSqrtRound_eq_floor_sqrt` proves it equals `⌊Real.sqrt q + 1/2⌋`
  (round-half-up, which agrees with Rust's round-half-away-from-zero on
  the nonnegative inputs that occur).  The saturating `as u8` cast is
  the `min 255` clamp.
* The canvas allocation `let frame_buf_size = (img_w * img_h) as usize`
  (source line 188) is a `u32` product: the buffer length is
  `(img_w * img_h) % 2^32`, and when the true area reaches `2^32` the
  product wraps and the buffer is shorter than the canvas.
* Rust panics (the `assert!` on an empty frame list, the out-of-bounds
  index `df.buffer[idx]` when a later frame's buffer is shorter than
  the first frame's grid demands, and the out-of-bounds pixel write
  `pixels[pix_idx] = 1` when the wrapped buffer does not cover the
  canvas) are modelled by `none`;
  `some` is a completed run.  File I/O and the `gif` crate's own writer
  are outside the model: a run that reaches the end without panicking is
  modelled as `some` output describing exactly the header and frame data
  handed to the encoder.
-/

namespace Pointillist

/-- One decoded RGBA source frame (`GifFrame` in the source): `width`,
`height` are the `u16` dimensions, `buffer` the row-major RGBA tuples. -/
structure GifFrame where
  width : ℕ
  height : ℕ
  buffer : List (ℕ × ℕ × ℕ × ℕ)
deriving DecidableEq

/-- One aggregated intensity frame (`DotFrame` in the source): `width`,
`height` are the `u16` grid dimensions, `buffer` the row-major cell
intensities. -/
structure DotFrame where
  width : ℕ
  height : ℕ
  buffer : List ℕ
deriving DecidableEq

/-- One frame as handed to the GIF encoder (`gif::Frame` construction at
the end of `write_circles_gif`). -/
structure OutFrame where
  width : ℕ
  height : ℕ
  buffer : List ℕ
  delay : ℕ
  transparent : Option ℕ
deriving DecidableEq

/-- The data `write_circles_gif` hands to the `gif` encoder: the header
dimensions (`Encoder::new(_, img_w as u16, img_h as u16, palette)`), the
global palette, and the written frames. -/
structure GifOutput where
  width : ℕ
  height : ℕ
  palette : List ℕ
  frames : List OutFrame
deriving DecidableEq

/-! ## Block aggregator (`convert_to_dots`) -/

/-- Exactly rounded square root of a nonnegative rational: computes
`⌊√q + 1/2⌋` (round half up, = Rust `f32::round` on nonnegative input)
using integer arithmetic; see `ratSqrtRound_eq_floor_sqrt`. -/
def ratSqrtRound (q : ℚ) : ℕ :=
  (Nat.sqrt (4 * q.num.toNat * q.den) + q.den) / (2 * q.den)

/-- Source lines 242-247:
`(0.299*r² + 0.587*g² + 0.114*b²).sqrt().round() as u8`.
The `as u8` cast saturates at 255 (the rounded value is a nonnegative
integer, so truncation toward zero is the identity). -/
def human_perceived_brightness (r g b : ℕ) : ℕ :=
  min 255 (ratSqrtRound
    (299 / 1000 * (r : ℚ) ^ 2 + 587 / 1000 * (g : ℚ) ^ 2 + 114 / 1000 * (b : ℚ) ^ 2))

/-- The default key closure passed to `convert_to_dots` in `main`
(source lines 253-260): alpha below 128 gives `0`, otherwise the
perceived brightness is scaled by `alpha / 255` and truncated
(`as usize`, i.e. `⌊·⌋` on a nonnegative value). -/
def defaultKey (px : ℕ × ℕ × ℕ × ℕ) : ℕ :=
  if px.2.2.2 < 128 then 0
  else (⌊(human_perceived_brightness px.1 px.2.1 px.2.2.1 : ℚ) * ((px.2.2.2 : ℚ) / 255)⌋).toNat

/-- The running `(total, count)` accumulation over one block (source
lines 112-131): pixels outside the frame, or whose row-major index is
out of range of the buffer, are skipped. -/
def blockTotalCount (frame : GifFrame) (block_size x y : ℕ)
    (key_func : ℕ × ℕ × ℕ × ℕ → ℕ) : ℕ × ℕ :=
  (List.range block_size).foldl (fun tc dy =>
    (List.range block_size).foldl (fun tc2 dx =>
      let px := x + dx
      let py := y + dy
      if frame.width ≤ px ∨ frame.height ≤ py then tc2
      else
        let index := py * frame.width + px
        if frame.buffer.length ≤ index then tc2
        else (tc2.1 + key_func (frame.buffer.getD index (0, 0, 0, 0)), tc2.2 + 1)) tc)
    (0, 0)

/-- One cell value: `if count > 0 { total / count } else { 0 }`
(source line 134). -/
def blockValue (frame : GifFrame) (block_size x y : ℕ)
    (key_func : ℕ × ℕ × ℕ × ℕ → ℕ) : ℕ :=
  if 0 < (blockTotalCount frame block_size x y key_func).2 then
    (blockTotalCount frame block_size x y key_func).1
      / (blockTotalCount frame block_size x y key_func).2
  else 0

/-- Rust `(0..n).step_by(b)`: the values `0, b, 2b, …` below `n`;
for `b ≥ 1` these are `⌈n/b⌉` many. -/
def step_by (n b : ℕ) : List ℕ :=
  (List.range ((n + b - 1) / b)).map (· * b)

/-- One frame of the aggregation loop body of `convert_to_dots` (source
lines 104-156): scan block rows top-to-bottom and block columns
left-to-right, push one average per block, and record the grid
dimensions `(width + b - 1) / b`, `(height + b - 1) / b` as `u16`. -/
def convert_frame (frame : GifFrame) (block_size : ℕ)
    (key_func : ℕ × ℕ × ℕ × ℕ → ℕ) : DotFrame :=
  let blocks := (step_by frame.height block_size).flatMap (fun y =>
    (step_by frame.width block_size).map (fun x =>
      blockValue frame block_size x y key_func))
  { width := ((frame.width + block_size - 1) / block_size) % 65536
    height := ((frame.height + block_size - 1) / block_size) % 65536
    buffer := blocks }

/-- Source lines 98-160: `convert_to_dots` maps the loop body over all
frames in order. -/
def convert_to_dots (frames : List GifFrame) (block_size : ℕ)
    (key_func : ℕ × ℕ × ℕ × ℕ → ℕ) : List DotFrame :=
  frames.map (fun frame => convert_frame frame block_size key_func)

/-- Source lines 262-267: the global maximum intensity,
`flat_map(buffer).max().unwrap_or(1)`. -/
def max_value (dot_frames : List DotFrame) : ℕ :=
  ((dot_frames.flatMap DotFrame.buffer).max?).getD 1

/-! ## Circle rasterizer and encoder (`write_circles_gif`) -/

/-- Source line 198: `r = (val / max_value.max(1)) * max_radius`,
as the exact rational value of the `f32` formula. -/
def radius (val max_value max_radius : ℕ) : ℚ :=
  (val : ℚ) / ((max max_value 1 : ℕ) : ℚ) * ((max_radius : ℕ) : ℚ)

/-- Source lines 201-206: circle center coordinate
`padding + idx*(2*max_radius + padding) + max_radius` (an exact
integer, identical for the `x`/`col` and `y`/`row` axes). -/
def center (padding max_radius idx : ℕ) : ℕ :=
  padding + idx * (2 * max_radius + padding) + max_radius

/-- Rust release-mode `w - 1` on `u32`: wraps to `2^32 - 1` when
`w = 0` (source lines 209, 211 compute `img_w - 1` / `img_h - 1`). -/
def u32_pred (w : ℕ) : ℕ :=
  if w = 0 then 4294967295 else w - 1

/-- The circle-membership test of source line 217
(`dx*dx + dy*dy <= r2`) in denominator-cleared integer form: with
`r = vR / mx` (see `radius`), the exact test
`(x-cx)² + (y-cy)² ≤ r²` is multiplied through by `mx² > 0`; the lemma
`hits_iff_in_circle` proves the two forms equivalent. -/
def hits (mx vR cx cy x y : ℕ) : Prop :=
  (mx : ℤ) ^ 2 * (((x : ℤ) - (cx : ℤ)) ^ 2 + ((y : ℤ) - (cy : ℤ)) ^ 2) ≤ (vR : ℤ) ^ 2

instance (mx vR cx cy x y : ℕ) : Decidable (hits mx vR cx cy x y) :=
  inferInstanceAs (Decidable (_ ≤ _))

/-- Lower bounding-box edge, source lines 208/210:
`((c - r).max(0.0).floor()) as u32` with `r = vR / mx`; natural
subtraction is exactly the `max(· , 0)` clamp
(lemma `bbox_lo_eq_floor`). -/
def bbox_lo (c mx vR : ℕ) : ℕ := (c * mx - vR) / mx

/-- Upper bounding-box edge, source lines 209/211:
`((c + r).min(lim as f32).ceil()) as u32` with `r = vR / mx`
(lemma `bbox_hi_eq_ceil`). -/
def bbox_hi (c mx vR lim : ℕ) : ℕ := min ((c * mx + vR + (mx - 1)) / mx) lim

/-- The write `pixels[pix_idx] = 1` of source line 219: a Rust index
assignment panics when the index is out of range, so an in-range write
updates the buffer and an out-of-range write is `none`. -/
def checked_set (b : List ℕ) (i v : ℕ) : Option (List ℕ) :=
  if i < b.length then some (b.set i v) else none

/-- Source lines 198-222, drawing one cell's circle.  With
`mx = max_value.max(1)` and `vR = val * max_radius` the exact values of
the source's `f32` quantities are `r = vR / mx`, `r2 = r^2`,
`x0 = ⌊max (cx - r) 0⌋`, `x1 = ⌈min (cx + r) (img_w - 1)⌉` (and the
same for `y`); the pixel test is `(x - cx)^2 + (y - cy)^2 ≤ r2`.
The painted index `(y * img_w + x)` is a `u32` product, hence
`% 2^32`, and the write `pixels[pix_idx] = 1` panics (`none`) when the
index is out of range of the canvas buffer. -/
def draw_cell (img_w img_h padding max_radius max_value row col val : ℕ)
    (pixels : List ℕ) : Option (List ℕ) :=
  (List.range' (bbox_lo (center padding max_radius row) (max max_value 1) (val * max_radius))
      (bbox_hi (center padding max_radius row) (max max_value 1) (val * max_radius)
          (u32_pred img_h) + 1
        - bbox_lo (center padding max_radius row) (max max_value 1) (val * max_radius))).foldl
    (fun ob (y : ℕ) =>
      (List.range' (bbox_lo (center padding max_radius col) (max max_value 1) (val * max_radius))
          (bbox_hi (center padding max_radius col) (max max_value 1) (val * max_radius)
              (u32_pred img_w) + 1
            - bbox_lo (center padding max_radius col) (max max_value 1) (val * max_radius))).foldl
        (fun ob2 (x : ℕ) =>
          ob2.bind (fun b2 =>
            if hits (max max_value 1) (val * max_radius)
                (center padding max_radius col) (center padding max_radius row) x y then
              checked_set b2 ((y * img_w + x) % 4294967296) 1
            else some b2)) ob) (some pixels)

/-- Total companion of `draw_cell` used only to state what a
successful (panic-free) paint produces: writes use `List.set`.  On a
buffer of the canvas size with positive dimensions and area at most
`2^32` every write of `draw_cell` is in range, and the two agree
(`draw_cell_eq_total`). -/
def draw_cell_total (img_w img_h padding max_radius max_value row col val : ℕ)
    (pixels : List ℕ) : List ℕ :=
  (List.range' (bbox_lo (center padding max_radius row) (max max_value 1) (val * max_radius))
      (bbox_hi (center padding max_radius row) (max max_value 1) (val * max_radius)
          (u32_pred img_h) + 1
        - bbox_lo (center padding max_radius row) (max max_value 1) (val * max_radius))).foldl
    (fun b (y : ℕ) =>
      (List.range' (bbox_lo (center padding max_radius col) (max max_value 1) (val * max_radius))
          (bbox_hi (center padding max_radius col) (max max_value 1) (val * max_radius)
              (u32_pred img_w) + 1
            - bbox_lo (center padding max_radius col) (max max_value 1) (val * max_radius))).foldl
        (fun b2 (x : ℕ) =>
          if hits (max max_value 1) (val * max_radius)
              (center padding max_radius col) (center padding max_radius row) x y then
            b2.set ((y * img_w + x) % 4294967296) 1
          else b2) b) pixels

/-- Source lines 188-224: paint one `DotFrame` onto a fresh canvas.
The allocation `let frame_buf_size = (img_w * img_h) as usize` is a
`u32` product, hence `% 2^32` (line 188); the canvas is filled with
`2` (`pixels.fill(2)`, line 192); the cell read
`df.buffer[row * grid_w + col]` and the pixel writes inside
`draw_cell` are Rust index operations whose panics are `none`. -/
def draw_frame (img_w img_h grid_w grid_h padding max_radius max_value : ℕ)
    (cells : List ℕ) : Option (List ℕ) :=
  (List.range grid_h).foldl (fun ob row =>
    (List.range grid_w).foldl (fun ob2 col =>
      ob2.bind (fun b =>
        (cells[row * grid_w + col]?).bind (fun val =>
          draw_cell img_w img_h padding max_radius max_value row col val b))) ob)
    (some (List.replicate ((img_w * img_h) % 4294967296) 2))

/-- Total companion of `draw_frame` used to state what a successful
(panic-free) run produces: cell reads use `getD` (default `0`) and
cells are painted with `draw_cell_total`; with every read in range and
a positive canvas of area below `2^32` it agrees with `draw_frame`
(`draw_frame_eq_some`). -/
def draw_frame_total (img_w img_h grid_w grid_h padding max_radius max_value : ℕ)
    (cells : List ℕ) : List ℕ :=
  (List.range grid_h).foldl (fun b row =>
    (List.range grid_w).foldl (fun b2 col =>
      draw_cell_total img_w img_h padding max_radius max_value row col
        (cells.getD (row * grid_w + col) 0) b2) b)
    (List.replicate ((img_w * img_h) % 4294967296) 2)

/-- Source lines 162-240: `write_circles_gif`.  The empty-frames
`assert!` is the `[]` case (`none` = panic).  The canvas size is
computed once from the first frame in `u32` arithmetic, narrowed
`as u16` for the encoder header and for every written frame. -/
def write_circles_gif (frames : List DotFrame)
    (padding max_radius max_value delay : ℕ) : Option GifOutput :=
  match frames with
  | [] => none
  | f0 :: _ =>
    let grid_w := f0.width
    let grid_h := f0.height
    let img_w := (grid_w * (2 * max_radius + padding) + padding) % 4294967296
    let img_h := (grid_h * (2 * max_radius + padding) + padding) % 4294967296
    (frames.mapM (fun df =>
      draw_frame img_w img_h grid_w grid_h padding max_radius max_value df.buffer)).map
      (fun bufs =>
        { width := img_w % 65536
          height := img_h % 65536
          palette := [0, 0, 0, 255, 255, 255]
          frames := bufs.map (fun pix =>
            { width := img_w % 65536
              height := img_h % 65536
              buffer := pix
              delay := delay
              transparent := some 2 }) })

/-- The pipeline of `main` after decoding (source lines 249-279):
aggregate with the default key, take the global maximum, encode. -/
def run_pipeline (frames : List GifFrame) (block_size padding max_radius delay : ℕ) :
    Option GifOutput :=
  let dot_frames := convert_to_dots frames block_size defaultKey
  write_circles_gif dot_frames padding max_radius (max_value dot_frames) delay

/-- Pixel `(x, y)` lies inside (or on) the circle of the cell at
`(row, col)` whose intensity is `val`: squared distance to the center
at most the squared radius, exactly the source's
`dx*dx + dy*dy <= r2`. -/
def in_circle (padding max_radius max_value val row col x y : ℕ) : Prop :=
  ((x : ℚ) - center padding max_radius col) ^ 2
      + ((y : ℚ) - center padding max_radius row) ^ 2
    ≤ radius val max_value max_radius ^ 2

/-- Pixel `(x, y)` is covered by some grid cell's circle. -/
def covered (grid_w grid_h padding max_radius max_value : ℕ) (cells : List ℕ)
    (x y : ℕ) : Prop :=
  ∃ row < grid_h, ∃ col < grid_w,
    in_circle padding max_radius max_value (cells.getD (row * grid_w + col) 0) row col x y

/-! ## Generic helpers -/

/-- Fold invariant: a property preserved by every step holds of the
result. -/
lemma foldl_preserve {α β : Type} (P : β → Prop) (f : β → α → β) :
    ∀ (l : List α) (init : β), P init → (∀ b a, a ∈ l → P b → P (f b a)) →
      P (l.foldl f init) := by
  intro l
  induction l with
  | nil => intro init h0 _; exact h0
  | cons a t ih =>
    intro init h0 hstep
    exact ih (f init a) (hstep init a (List.mem_cons_self a t) h0)
      (fun b x hx hb => hstep b x (List.mem_cons_of_mem a hx) hb)

/-- Folding over a `flatMap` is the nested fold. -/
lemma foldl_flatMap {α β γ : Type} (l : List α) (f : α → List β) (g : γ → β → γ) :
    ∀ init : γ, (l.flatMap f).foldl g init = l.foldl (fun c a => (f a).foldl g c) init := by
  induction l with
  | nil => intro init; rfl
  | cons a t ih => intro init; simp [List.flatMap_cons, List.foldl_append, ih]

/-- Length of a `flatMap` whose pieces all have the same length. -/
lemma length_flatMap_const {α β : Type} (l : List α) (f : α → List β) (c : ℕ)
    (h : ∀ a ∈ l, (f a).length = c) : (l.flatMap f).length = l.length * c := by
  induction l with
  | nil => simp
  | cons a t ih =>
    rw [List.flatMap_cons, List.length_append, h a (List.mem_cons_self a t),
      ih (fun x hx => h x (List.mem_cons_of_mem a hx)), List.length_cons]
    ring

/-- Natural floor division matches rational floor. -/
lemma floor_natCast_div (a b : ℕ) : ⌊(a : ℚ) / (b : ℚ)⌋ = ((a / b : ℕ) : ℤ) := by
  rcases Nat.eq_zero_or_pos b with hb | hb
  · subst hb; simp
  · have h0 : (0 : ℚ) ≤ (a : ℚ) / (b : ℚ) := by positivity
    rw [← Int.natCast_floor_eq_floor h0, Nat.floor_div_nat, Nat.floor_natCast]

/-- Natural ceiling division `(a + b - 1) / b` matches the rational
ceiling, for `b ≥ 1`. -/
lemma ceil_natCast_div (a b : ℕ) (hb : 1 ≤ b) :
    ⌈(a : ℚ) / (b : ℚ)⌉ = (((a + b - 1) / b : ℕ) : ℤ) := by
  have hb0 : 0 < b := hb
  have hbq : (0 : ℚ) < (b : ℚ) := by exact_mod_cast hb0
  set n := (a + b - 1) / b with hn
  have h1 : n * b ≤ a + b - 1 := (Nat.le_div_iff_mul_le hb0).mp (le_of_eq hn)
  have h2 : a + b - 1 < (n + 1) * b := by
    refine (Nat.div_lt_iff_lt_mul hb0).mp ?_
    rw [← hn]
    exact Nat.lt_succ_self n
  have h2' : a + b - 1 < n * b + b := by rw [Nat.succ_mul] at h2; exact h2
  have hub : a ≤ n * b := by omega
  have hlb : n * b < a + b := by omega
  rw [Int.ceil_eq_iff]
  have hubq : (a : ℚ) ≤ (n : ℚ) * (b : ℚ) := by exact_mod_cast hub
  have hlbq : (n : ℚ) * (b : ℚ) < (a : ℚ) + (b : ℚ) := by exact_mod_cast hlb
  constructor
  · rw [lt_div_iff₀ hbq]
    push_cast
    linarith
  · rw [div_le_iff₀ hbq]
    push_cast
    linarith

/-- Ceiling division by `b ≥ 1` does not exceed the dividend. -/
lemma ceil_div_le_self (a b : ℕ) (hb : 1 ≤ b) : (a + b - 1) / b ≤ a := by
  rcases a with _ | n
  · simp [Nat.div_eq_of_lt (by omega : b - 1 < b)]
  · have : n + 1 + b - 1 = n + b := by omega
    rw [this, Nat.add_div_right _ hb]
    have := Nat.div_le_self n b
    omega

/-! ## Claim C1: block count and grid dimensions -/

/-- Length of a `step_by` index list. -/
lemma length_step_by (n b : ℕ) : (step_by n b).length = (n + b - 1) / b := by
  simp [step_by]

/-- Claim C1: for every decoded frame of width `W` and height `H` and
every block size `b ≥ 1`, `convert_to_dots` produces a `DotFrame`
whose cell buffer has length exactly `⌈W/b⌉ * ⌈H/b⌉` and whose
recorded grid dimensions are `grid_width = ⌈W/b⌉` and
`grid_height = ⌈H/b⌉` (the natural-number form `(n + b - 1) / b` is
proved equal to the rational ceiling). -/
theorem c1_block_count (frames : List GifFrame) (block_size : ℕ)
    (key_func : ℕ × ℕ × ℕ × ℕ → ℕ) (hb : 1 ≤ block_size)
    (hdim : ∀ f ∈ frames, f.width < 65536 ∧ f.height < 65536) :
    ∀ df ∈ convert_to_dots frames block_size key_func,
      ∃ f ∈ frames,
        df.width = (f.width + block_size - 1) / block_size ∧
        df.height = (f.height + block_size - 1) / block_size ∧
        df.buffer.length = df.width * df.height ∧
        (df.width : ℤ) = ⌈(f.width : ℚ) / (block_size : ℚ)⌉ ∧
        (df.height : ℤ) = ⌈(f.height : ℚ) / (block_size : ℚ)⌉ := by
  intro df hdf
  rw [convert_to_dots, List.mem_map] at hdf
  obtain ⟨f, hf, rfl⟩ := hdf
  obtain ⟨hw, hh⟩ := hdim f hf
  refine ⟨f, hf, ?_, ?_, ?_, ?_, ?_⟩
  · show ((f.width + block_size - 1) / block_size) % 65536 = _
    exact Nat.mod_eq_of_lt (lt_of_le_of_lt (ceil_div_le_self _ _ hb) hw)
  · show ((f.height + block_size - 1) / block_size) % 65536 = _
    exact Nat.mod_eq_of_lt (lt_of_le_of_lt (ceil_div_le_self _ _ hb) hh)
  · show ((step_by f.height block_size).flatMap _).length = _
    rw [length_flatMap_const _ _ ((f.width + block_size - 1) / block_size)
      (fun y _ => by simp [length_step_by]), length_step_by]
    show _ = ((f.width + block_size - 1) / block_size) % 65536
      * (((f.height + block_size - 1) / block_size) % 65536)
    rw [Nat.mod_eq_of_lt (lt_of_le_of_lt (ceil_div_le_self _ _ hb) hw),
      Nat.mod_eq_of_lt (lt_of_le_of_lt (ceil_div_le_self _ _ hb) hh),
      Nat.mul_comm]
  · rw [ceil_natCast_div _ _ hb]
    show ((((f.width + block_size - 1) / block_size) % 65536 : ℕ) : ℤ) = _
    rw [Nat.mod_eq_of_lt (lt_of_le_of_lt (ceil_div_le_self _ _ hb) hw)]
  · rw [ceil_natCast_div _ _ hb]
    show ((((f.height + block_size - 1) / block_size) % 65536 : ℕ) : ℤ) = _
    rw [Nat.mod_eq_of_lt (lt_of_le_of_lt (ceil_div_le_self _ _ hb) hh)]

/-- Witness for C1 at a concrete input: a 3×3 frame with block size 2
yields a 2×2 grid of 4 cells. -/
theorem c1_block_count_witness :
    1 ≤ 2 ∧
    (∀ f ∈ [(⟨3, 3, List.replicate 9 (0, 0, 0, 0)⟩ : GifFrame)],
      f.width < 65536 ∧ f.height < 65536) ∧
    (∀ df ∈ convert_to_dots [⟨3, 3, List.replicate 9 (0, 0, 0, 0)⟩] 2 defaultKey,
      ∃ f ∈ [(⟨3, 3, List.replicate 9 (0, 0, 0, 0)⟩ : GifFrame)],
        df.width = (f.width + 2 - 1) / 2 ∧
        df.height = (f.height + 2 - 1) / 2 ∧
        df.buffer.length = df.width * df.height ∧
        (df.width : ℤ) = ⌈(f.width : ℚ) / (2 : ℚ)⌉ ∧
        (df.height : ℤ) = ⌈(f.height : ℚ) / (2 : ℚ)⌉) :=
  ⟨by decide, by decide,
    c1_block_count [⟨3, 3, List.replicate 9 (0, 0, 0, 0)⟩] 2 defaultKey
      (by decide) (by decide)⟩

/-! ## Claim C5: radius scaling -/

/-- Claim C5: the circle radius for a cell is
`r = (v / max(M,1)) * R`; for fixed `M > 0` and `R` it is monotone in
the intensity, intensity `M` gives exactly `R`, and intensity `0`
gives `0`. -/
theorem c5_radius_scaling (M R : ℕ) (hM : 0 < M) :
    (∀ v : ℕ, radius v M R = (v : ℚ) / ((max M 1 : ℕ) : ℚ) * (R : ℚ)) ∧
    (∀ v1 v2 : ℕ, v1 < v2 → radius v1 M R ≤ radius v2 M R) ∧
    radius M M R = (R : ℚ) ∧
    radius 0 M R = 0 := by
  have hmax : max M 1 = M := Nat.max_eq_left hM
  have hMq : (0 : ℚ) < (M : ℚ) := by exact_mod_cast hM
  refine ⟨fun v => rfl, ?_, ?_, ?_⟩
  · intro v1 v2 h12
    unfold radius
    have h12q : (v1 : ℚ) ≤ (v2 : ℚ) := by exact_mod_cast Nat.le_of_lt h12
    gcongr
  · unfold radius
    rw [hmax, div_self (ne_of_gt hMq), one_mul]
  · unfold radius
    simp

/-- Witness for C5 at `M = 2`, `R = 8`. -/
theorem c5_radius_scaling_witness :
    0 < 2 ∧
    ((∀ v : ℕ, radius v 2 8 = (v : ℚ) / ((max 2 1 : ℕ) : ℚ) * ((8 : ℕ) : ℚ)) ∧
    (∀ v1 v2 : ℕ, v1 < v2 → radius v1 2 8 ≤ radius v2 2 8) ∧
    radius 2 2 8 = ((8 : ℕ) : ℚ) ∧
    radius 0 2 8 = 0) :=
  ⟨by decide, c5_radius_scaling 2 8 (by decide)⟩

/-! ## Claim C2: intensity bound for the default key -/

/-- The default key never exceeds 255 on a pixel with an 8-bit alpha
channel. -/
lemma defaultKey_le (px : ℕ × ℕ × ℕ × ℕ) (ha : px.2.2.2 ≤ 255) :
    defaultKey px ≤ 255 := by
  unfold defaultKey
  split
  · exact Nat.zero_le _
  · have hB : (human_perceived_brightness px.1 px.2.1 px.2.2.1 : ℚ) ≤ 255 := by
      exact_mod_cast (min_le_left 255 _ :
        human_perceived_brightness px.1 px.2.1 px.2.2.1 ≤ 255)
    have haq : ((px.2.2.2 : ℕ) : ℚ) ≤ 255 := by exact_mod_cast ha
    have hB0 : (0 : ℚ) ≤ (human_perceived_brightness px.1 px.2.1 px.2.2.1 : ℚ) := by
      positivity
    have hprod : (human_perceived_brightness px.1 px.2.1 px.2.2.1 : ℚ)
        * ((px.2.2.2 : ℚ) / 255) ≤ 255 := by
      have h1 : ((px.2.2.2 : ℕ) : ℚ) / 255 ≤ 1 := by
        rw [div_le_one (by norm_num : (0:ℚ) < 255)]
        exact haq
      have h0 : (0 : ℚ) ≤ ((px.2.2.2 : ℕ) : ℚ) / 255 := by positivity
      calc (human_perceived_brightness px.1 px.2.1 px.2.2.1 : ℚ)
          * ((px.2.2.2 : ℚ) / 255)
          ≤ 255 * 1 := mul_le_mul hB h1 h0 (by norm_num)
        _ = 255 := by norm_num
    have hfloor : ⌊(human_perceived_brightness px.1 px.2.1 px.2.2.1 : ℚ)
        * ((px.2.2.2 : ℚ) / 255)⌋ ≤ 255 := by
      calc ⌊(human_perceived_brightness px.1 px.2.1 px.2.2.1 : ℚ)
          * ((px.2.2.2 : ℚ) / 255)⌋ ≤ ⌊(255 : ℚ)⌋ := Int.floor_le_floor hprod
        _ = 255 := by norm_num
    exact_mod_cast Int.toNat_le.mpr hfloor

/-- Every cell produced by the block accumulation is at most 255 when
the key function is bounded by 255 on the frame's pixels. -/
lemma blockValue_le (frame : GifFrame) (block_size x y : ℕ)
    (key_func : ℕ × ℕ × ℕ × ℕ → ℕ)
    (hkey : ∀ px ∈ frame.buffer, key_func px ≤ 255) :
    blockValue frame block_size x y key_func ≤ 255 := by
  have hinv : (blockTotalCount frame block_size x y key_func).1
      ≤ 255 * (blockTotalCount frame block_size x y key_func).2 := by
    unfold blockTotalCount
    refine foldl_preserve (fun tc : ℕ × ℕ => tc.1 ≤ 255 * tc.2) _ _ _ (by simp) ?_
    intro tc dy _ htc
    refine foldl_preserve (fun tc : ℕ × ℕ => tc.1 ≤ 255 * tc.2) _ _ _ htc ?_
    intro tc2 dx _ htc2
    dsimp only
    split
    · exact htc2
    · split
      · exact htc2
      · rename_i hin hidx
        have hlt : (y + dy) * frame.width + (x + dx) < frame.buffer.length :=
          Nat.lt_of_not_le hidx
        have hget : frame.buffer.getD ((y + dy) * frame.width + (x + dx)) (0, 0, 0, 0)
            ∈ frame.buffer := by
          rw [List.getD_eq_getElem?_getD, List.getElem?_eq_getElem hlt]
          exact List.getElem_mem hlt
        have hk := hkey _ hget
        calc tc2.1 + key_func (frame.buffer.getD ((y + dy) * frame.width + (x + dx)) (0,0,0,0))
            ≤ 255 * tc2.2 + 255 := Nat.add_le_add htc2 hk
          _ = 255 * (tc2.2 + 1) := by ring
  unfold blockValue
  split
  · rename_i hc
    calc (blockTotalCount frame block_size x y key_func).1
        / (blockTotalCount frame block_size x y key_func).2
        ≤ 255 * (blockTotalCount frame block_size x y key_func).2
          / (blockTotalCount frame block_size x y key_func).2 :=
          Nat.div_le_div_right hinv
      _ = 255 := Nat.mul_div_cancel 255 hc
  · exact Nat.zero_le _

/-- Claim C2: with the default brightness key, every cell value of
every `IntensityFrame` produced by `convert_to_dots` lies in
`[0, 255]` (values are naturals, so only the upper bound is stated),
for every frame sequence with 8-bit alpha channels and every block
size `b ≥ 1`. -/
theorem c2_intensity_bound (frames : List GifFrame) (block_size : ℕ)
    (_hb : 1 ≤ block_size)
    (halpha : ∀ f ∈ frames, ∀ px ∈ f.buffer, px.2.2.2 ≤ 255) :
    ∀ df ∈ convert_to_dots frames block_size defaultKey,
      ∀ v ∈ df.buffer, v ≤ 255 := by
  intro df hdf v hv
  rw [convert_to_dots, List.mem_map] at hdf
  obtain ⟨f, hf, rfl⟩ := hdf
  show v ≤ 255
  have hbuf : v ∈ (step_by f.height block_size).flatMap (fun y =>
      (step_by f.width block_size).map (fun x =>
        blockValue f block_size x y defaultKey)) := hv
  rw [List.mem_flatMap] at hbuf
  obtain ⟨y, _, hy⟩ := hbuf
  rw [List.mem_map] at hy
  obtain ⟨x, _, rfl⟩ := hy
  exact blockValue_le f block_size x y defaultKey
    (fun px hpx => defaultKey_le px (halpha f hf px hpx))

/-- Witness for C2 at a concrete input: one opaque pixel, block size 1. -/
theorem c2_intensity_bound_witness :
    1 ≤ 1 ∧
    (∀ f ∈ [(⟨1, 1, [(10, 20, 30, 200)]⟩ : GifFrame)],
      ∀ px ∈ f.buffer, px.2.2.2 ≤ 255) ∧
    (∀ df ∈ convert_to_dots [⟨1, 1, [(10, 20, 30, 200)]⟩] 1 defaultKey,
      ∀ v ∈ df.buffer, v ≤ 255) :=
  ⟨by decide, by decide,
    c2_intensity_bound [⟨1, 1, [(10, 20, 30, 200)]⟩] 1 (by decide) (by decide)⟩

/-! ## Claim C3: the default key function -/

/-- The integer computation `ratSqrtRound` is exactly the rounded
square root `⌊√q + 1/2⌋` (round half up, which agrees with Rust's
round-half-away-from-zero on nonnegative input). -/
lemma ratSqrtRound_eq_floor_sqrt (q : ℚ) (hq : 0 ≤ q) :
    (ratSqrtRound q : ℤ) = ⌊Real.sqrt (q : ℝ) + 1 / 2⌋ := by
  set a := q.num.toNat with ha
  set d := q.den with hd
  have hd0 : 0 < d := q.pos
  have hd0r : (0 : ℝ) < (d : ℝ) := by exact_mod_cast hd0
  have hnum : (q.num : ℤ) = (a : ℤ) := (Int.toNat_of_nonneg (Rat.num_nonneg.mpr hq)).symm
  have hcast : (q : ℝ) = (a : ℝ) / (d : ℝ) := by
    rw [Rat.cast_def]
    congr 1
    exact_mod_cast congrArg (fun z : ℤ => (z : ℝ)) hnum
  set s := Nat.sqrt (4 * a * d) with hs
  have hsl : (s : ℝ) ≤ Real.sqrt ((4 * a * d : ℕ) : ℝ) := Real.nat_sqrt_le_real_sqrt
  have hsu : Real.sqrt ((4 * a * d : ℕ) : ℝ) < (s : ℝ) + 1 := by
    exact_mod_cast Real.real_sqrt_lt_nat_sqrt_succ
  have h4 : Real.sqrt ((4 * a * d : ℕ) : ℝ) = 2 * Real.sqrt ((a : ℝ) * (d : ℝ)) := by
    have : ((4 * a * d : ℕ) : ℝ) = 4 * ((a : ℝ) * (d : ℝ)) := by push_cast; ring
    rw [this, Real.sqrt_mul (by norm_num : (0:ℝ) ≤ 4),
      show (4 : ℝ) = 2 ^ 2 by norm_num, Real.sqrt_sq (by norm_num : (0:ℝ) ≤ 2)]
  have hsqrtq : Real.sqrt (q : ℝ) = Real.sqrt ((a : ℝ) * (d : ℝ)) / (d : ℝ) := by
    rw [hcast, show (a : ℝ) / (d : ℝ) = ((a : ℝ) * (d : ℝ)) / ((d : ℝ) ^ 2) by
      field_simp; ring, Real.sqrt_div (by positivity) _, Real.sqrt_sq hd0r.le]
  have hform : Real.sqrt (q : ℝ) + 1 / 2
      = (Real.sqrt ((4 * a * d : ℕ) : ℝ) + (d : ℝ)) / (2 * (d : ℝ)) := by
    rw [hsqrtq, h4]
    field_simp
    ring
  set k := (s + d) / (2 * d) with hk
  have h2d : 0 < 2 * d := by omega
  have hkl : k * (2 * d) ≤ s + d := (Nat.le_div_iff_mul_le h2d).mp (le_of_eq hk)
  have hku : s + d < (k + 1) * (2 * d) := by
    refine (Nat.div_lt_iff_lt_mul h2d).mp ?_
    rw [← hk]
    exact Nat.lt_succ_self k
  have hklr : (k : ℝ) * (2 * (d : ℝ)) ≤ (s : ℝ) + (d : ℝ) := by exact_mod_cast hkl
  have hkur : (s : ℝ) + (d : ℝ) + 1 ≤ ((k : ℝ) + 1) * (2 * (d : ℝ)) := by
    exact_mod_cast hku
  have hgoal : ⌊Real.sqrt (q : ℝ) + 1 / 2⌋ = (k : ℤ) := by
    push_cast at hsl hsu hform
    rw [hform, Int.floor_eq_iff]
    constructor
    · rw [le_div_iff₀ (by positivity)]
      push_cast
      linarith
    · rw [div_lt_iff₀ (by positivity)]
      push_cast
      linarith
  rw [hgoal]
  norm_cast

/-- Spec-side brightness, modelled from the spec:
`round(sqrt(0.299*R² + 0.587*G² + 0.114*B²))` truncated to an 8-bit
integer (the saturating cast). -/
noncomputable def brightnessSpec (r g b : ℕ) : ℤ :=
  min 255 (round (Real.sqrt
    (0.299 * (r : ℝ) ^ 2 + 0.587 * (g : ℝ) ^ 2 + 0.114 * (b : ℝ) ^ 2)))

/-- Spec-side default key, modelled from the spec: pixels with alpha
below 128 give intensity 0; otherwise the 8-bit brightness is
multiplied by `alpha/255` and truncated to an integer. -/
noncomputable def defaultKeySpec (r g b a : ℕ) : ℕ :=
  if a < 128 then 0
  else (⌊(brightnessSpec r g b : ℝ) * ((a : ℝ) / 255)⌋).toNat

/-- The source's brightness computation equals the spec formula. -/
lemma human_perceived_brightness_eq_spec (r g b : ℕ) :
    (human_perceived_brightness r g b : ℤ) = brightnessSpec r g b := by
  unfold human_perceived_brightness brightnessSpec
  rw [Nat.cast_min]
  congr 1
  rw [round_eq, ratSqrtRound_eq_floor_sqrt _ (by positivity)]
  congr 2
  push_cast
  norm_num

/-- Claim C3: the default key maps every pixel with alpha below 128 to
intensity 0 regardless of RGB (in particular RGBA `(255,255,255,0)`
yields 0), and maps every pixel with alpha at least 128 to the integer
truncation of `round(sqrt(0.299R² + 0.587G² + 0.114B²))` (truncated to
8 bits) multiplied by `alpha/255`, i.e. it agrees everywhere with the
spec-side key. -/
theorem c3_default_key :
    (∀ r g b a : ℕ, defaultKey (r, g, b, a) = defaultKeySpec r g b a) ∧
    (∀ r g b a : ℕ, a < 128 → defaultKey (r, g, b, a) = 0) ∧
    defaultKey (255, 255, 255, 0) = 0 := by
  refine ⟨?_, ?_, by decide⟩
  · intro r g b a
    unfold defaultKey defaultKeySpec
    dsimp only
    split
    · rfl
    · congr 1
      rw [← Rat.floor_cast (α := ℝ)]
      congr 1
      push_cast
      rw [← human_perceived_brightness_eq_spec]
      push_cast
      ring
  · intro r g b a hlt
    unfold defaultKey
    dsimp only
    rw [if_pos hlt]

/-- Witness for C3 (the second conjunct carries the hypothesis
`a < 128`): the spec's example pixel. -/
theorem c3_default_key_witness :
    (0 : ℕ) < 128 ∧ defaultKey (255, 255, 255, 0) = 0 :=
  ⟨by decide, c3_default_key.2.1 255 255 255 0 (by decide)⟩

/-! ## Claim C8: empty frame sequence -/

/-- Claim C8: calling `write_circles_gif` with an empty frame sequence
aborts (the `assert!` panic, modelled by `none`): no output value and
no recoverable error result is produced, for every parameter choice. -/
theorem c8_empty_aborts (padding max_radius max_value delay : ℕ) :
    write_circles_gif [] padding max_radius max_value delay = none := rfl

/-! ## Correspondence of the integer rasterizer forms with the
source's `f32` formulas -/

/-- The radius is the cleared-denominator quotient `vR / mx`. -/
lemma radius_eq_div (val max_value max_radius : ℕ) :
    radius val max_value max_radius
      = ((val * max_radius : ℕ) : ℚ) / ((max max_value 1 : ℕ) : ℚ) := by
  unfold radius
  push_cast
  ring

/-- The radius is nonnegative. -/
lemma radius_nonneg (val max_value max_radius : ℕ) :
    0 ≤ radius val max_value max_radius := by
  unfold radius
  positivity

/-- The divisor `max max_value 1` is positive (in `ℚ`). -/
lemma mx_pos_q (max_value : ℕ) : (0 : ℚ) < ((max max_value 1 : ℕ) : ℚ) := by
  have : 0 < max max_value 1 := lt_of_lt_of_le Nat.one_pos (Nat.le_max_right _ _)
  exact_mod_cast this

/-- The integer lower bbox edge is the source's
`((c - r).max(0.0).floor()) as u32`. -/
lemma bbox_lo_eq_floor (c max_value val max_radius : ℕ) :
    bbox_lo c (max max_value 1) (val * max_radius)
      = (⌊max ((c : ℚ) - radius val max_value max_radius) 0⌋).toNat := by
  set mx := max max_value 1 with hmx
  have hmx1 : 1 ≤ mx := Nat.le_max_right _ _
  have hmxq : (0 : ℚ) < (mx : ℚ) := mx_pos_q max_value
  set vR := val * max_radius with hvR
  rw [radius_eq_div]
  rcases le_or_lt vR (c * mx) with hle | hlt
  · have hr : ((vR : ℕ) : ℚ) / (mx : ℚ) ≤ (c : ℚ) := by
      rw [div_le_iff₀ hmxq]
      exact_mod_cast hle
    have hmax : max ((c : ℚ) - (vR : ℚ) / (mx : ℚ)) 0
        = (c : ℚ) - (vR : ℚ) / (mx : ℚ) := max_eq_left (by linarith)
    rw [hmax]
    have hsub : (c : ℚ) - (vR : ℚ) / (mx : ℚ) = ((c * mx - vR : ℕ) : ℚ) / (mx : ℚ) := by
      rw [Nat.cast_sub hle]
      push_cast
      field_simp
    rw [hsub, floor_natCast_div, Int.toNat_natCast]
    rfl
  · have h0 : bbox_lo c mx vR = 0 := by
      unfold bbox_lo
      rw [Nat.sub_eq_zero_of_le (Nat.le_of_lt hlt), Nat.zero_div]
    have hr : (c : ℚ) ≤ ((vR : ℕ) : ℚ) / (mx : ℚ) := by
      rw [le_div_iff₀ hmxq]
      exact_mod_cast Nat.le_of_lt hlt
    have hmax : max ((c : ℚ) - (vR : ℚ) / (mx : ℚ)) 0 = 0 := max_eq_right (by linarith)
    rw [h0, hmax]
    simp

/-- The integer upper bbox edge is the source's
`((c + r).min(lim as f32).ceil()) as u32`. -/
lemma bbox_hi_eq_ceil (c max_value val max_radius lim : ℕ) :
    bbox_hi c (max max_value 1) (val * max_radius) lim
      = (⌈min ((c : ℚ) + radius val max_value max_radius) ((lim : ℕ) : ℚ)⌉).toNat := by
  set mx := max max_value 1 with hmx
  have hmx1 : 1 ≤ mx := Nat.le_max_right _ _
  have hmxq : (0 : ℚ) < (mx : ℚ) := mx_pos_q max_value
  set vR := val * max_radius with hvR
  rw [radius_eq_div]
  have hsum : (c : ℚ) + (vR : ℚ) / (mx : ℚ) = ((c * mx + vR : ℕ) : ℚ) / (mx : ℚ) := by
    push_cast
    field_simp
  have hceil : ⌈((c * mx + vR : ℕ) : ℚ) / (mx : ℚ)⌉ = (((c * mx + vR + (mx - 1)) / mx : ℕ) : ℤ) := by
    have hnum : c * mx + vR + mx - 1 = c * mx + vR + (mx - 1) := by omega
    rw [ceil_natCast_div (c * mx + vR) mx hmx1, hnum]
  have hnn : (0 : ℚ) ≤ ((c * mx + vR : ℕ) : ℚ) / (mx : ℚ) := by positivity
  rcases le_total (((c * mx + vR : ℕ) : ℚ) / (mx : ℚ)) ((lim : ℕ) : ℚ) with hle | hge
  · have hminq : min ((c : ℚ) + (vR : ℚ) / (mx : ℚ)) ((lim : ℕ) : ℚ)
        = ((c * mx + vR : ℕ) : ℚ) / (mx : ℚ) := by rw [hsum]; exact min_eq_left hle
    rw [hminq, hceil]
    have hle' : (c * mx + vR + (mx - 1)) / mx ≤ lim := by
      have : (((c * mx + vR + (mx - 1)) / mx : ℕ) : ℤ) ≤ ((lim : ℕ) : ℤ) := by
        rw [← hceil]
        exact Int.ceil_le.mpr (by exact_mod_cast hle)
      exact_mod_cast this
    rw [Int.toNat_natCast]
    exact (min_eq_left hle').symm ▸ rfl
  · have hminq : min ((c : ℚ) + (vR : ℚ) / (mx : ℚ)) ((lim : ℕ) : ℚ)
        = ((lim : ℕ) : ℚ) := by rw [hsum]; exact min_eq_right hge
    rw [hminq, Int.ceil_natCast, Int.toNat_natCast]
    have hge' : lim ≤ (c * mx + vR + (mx - 1)) / mx := by
      have : ((lim : ℕ) : ℤ) ≤ (((c * mx + vR + (mx - 1)) / mx : ℕ) : ℤ) := by
        rw [← hceil]
        calc ((lim : ℕ) : ℤ) = ⌈((lim : ℕ) : ℚ)⌉ := (Int.ceil_natCast _).symm
          _ ≤ ⌈((c * mx + vR : ℕ) : ℚ) / (mx : ℚ)⌉ := Int.ceil_le_ceil hge
      exact_mod_cast this
    exact min_eq_right hge'

/-- The integer circle test is the source's exact pixel test
`(x - cx)² + (y - cy)² ≤ r²`. -/
lemma hits_iff_in_circle (padding max_radius max_value val row col x y : ℕ) :
    hits (max max_value 1) (val * max_radius)
        (center padding max_radius col) (center padding max_radius row) x y
      ↔ in_circle padding max_radius max_value val row col x y := by
  unfold hits in_circle
  rw [radius_eq_div]
  set mx := max max_value 1 with hmx
  have hmxq : (0 : ℚ) < (mx : ℚ) := mx_pos_q max_value
  set vR := val * max_radius with hvR
  set cx := center padding max_radius col with hcx
  set cy := center padding max_radius row with hcy
  rw [div_pow, le_div_iff₀ (by positivity : (0 : ℚ) < (mx : ℚ) ^ 2)]
  constructor
  · intro h
    have h' : ((mx : ℤ) ^ 2 * (((x : ℤ) - (cx : ℤ)) ^ 2 + ((y : ℤ) - (cy : ℤ)) ^ 2) : ℚ)
        ≤ (((vR : ℤ) ^ 2 : ℤ) : ℚ) := by exact_mod_cast h
    push_cast at h'
    nlinarith [h']
  · intro h
    have hq : (((mx : ℤ) ^ 2 * (((x : ℤ) - (cx : ℤ)) ^ 2 + ((y : ℤ) - (cy : ℤ)) ^ 2) : ℤ) : ℚ)
        ≤ (((vR : ℤ) ^ 2 : ℤ) : ℚ) := by
      push_cast
      nlinarith [h]
    exact_mod_cast hq

/-! ## Paint-fold machinery -/

/-- Membership in a step-1 `range'`. -/
lemma mem_range_one (s n m : ℕ) : m ∈ List.range' s n ↔ s ≤ m ∧ m < s + n := by
  rw [List.mem_range']
  constructor
  · rintro ⟨i, hi, rfl⟩
    omega
  · rintro ⟨h1, h2⟩
    exact ⟨m - s, by omega, by omega⟩

/-- Setting position `j` and reading it back. -/
lemma getElem?_set_one (b : List ℕ) (j v : ℕ) :
    (b.set j v)[j]? = if j < b.length then some v else none := by
  rw [List.getElem?_set_self']
  rcases Nat.lt_or_ge j b.length with h | h
  · rw [List.getElem?_eq_getElem h, if_pos h]
    rfl
  · rw [List.getElem?_eq_none (by omega), if_neg (by omega)]
    rfl

/-- Characterization of a left fold of steps that only ever set
positions to `1`: position `j` of the result is `1` exactly when some
step of the list covers `j`, and is untouched otherwise; the length is
preserved. -/
lemma foldl_paint_char {σ : Type} (N : ℕ) (f : List ℕ → σ → List ℕ)
    (cover : σ → ℕ → Prop)
    (hlen : ∀ b s, b.length = N → (f b s).length = N)
    (hchar1 : ∀ b s j, b.length = N → cover s j →
      (f b s)[j]? = if j < N then some 1 else none)
    (hchar2 : ∀ b s j, b.length = N → ¬ cover s j → (f b s)[j]? = b[j]?) :
    ∀ (L : List σ) (b : List ℕ), b.length = N →
      (L.foldl f b).length = N ∧
      ∀ j, ((∃ s ∈ L, cover s j) →
              (L.foldl f b)[j]? = if j < N then some 1 else none) ∧
           ((¬ ∃ s ∈ L, cover s j) → (L.foldl f b)[j]? = b[j]?) := by
  intro L
  induction L with
  | nil =>
    intro b hb
    refine ⟨hb, fun j => ⟨?_, fun _ => rfl⟩⟩
    rintro ⟨s, hs, _⟩
    exact absurd hs (List.not_mem_nil s)
  | cons s t ih =>
    intro b hb
    have hb' : (f b s).length = N := hlen b s hb
    obtain ⟨ihlen, ihchar⟩ := ih (f b s) hb'
    rw [List.foldl_cons]
    refine ⟨ihlen, fun j => ⟨?_, ?_⟩⟩
    · rintro ⟨s', hs', hcov⟩
      rcases List.mem_cons.mp hs' with heq | hmem
      · by_cases ht : ∃ u ∈ t, cover u j
        · exact (ihchar j).1 ht
        · rw [(ihchar j).2 ht, hchar1 b s j hb (heq ▸ hcov)]
      · exact (ihchar j).1 ⟨s', hmem, hcov⟩
    · intro hnone
      have hns : ¬ cover s j := fun hc => hnone ⟨s, List.mem_cons_self s t, hc⟩
      have hnt : ¬ ∃ u ∈ t, cover u j := by
        rintro ⟨u, hu, hc⟩
        exact hnone ⟨u, List.mem_cons_of_mem s hu, hc⟩
      rw [(ihchar j).2 hnt, hchar2 b s j hb hns]

/-- Painting one cell never changes the buffer length. -/
lemma draw_cell_total_length (img_w img_h padding max_radius max_value row col val : ℕ)
    (pixels : List ℕ) :
    (draw_cell_total img_w img_h padding max_radius max_value row col val pixels).length
      = pixels.length := by
  unfold draw_cell_total
  refine foldl_preserve (fun b : List ℕ => b.length = pixels.length) _ _ _ rfl ?_
  intro b y _ hbl
  refine foldl_preserve (fun b : List ℕ => b.length = pixels.length) _ _ _ hbl ?_
  intro b2 x _ hb2
  dsimp only
  split
  · rw [List.length_set]
    exact hb2
  · exact hb2

/-- Row-major list of the clipped bounding-box pixel coordinates
`(y, x)` scanned by `draw_cell_total`. -/
def bbox_pairs (img_w img_h padding max_radius max_value row col val : ℕ) :
    List (ℕ × ℕ) :=
  (List.range' (bbox_lo (center padding max_radius row) (max max_value 1) (val * max_radius))
      (bbox_hi (center padding max_radius row) (max max_value 1) (val * max_radius)
          (u32_pred img_h) + 1
        - bbox_lo (center padding max_radius row) (max max_value 1) (val * max_radius))).flatMap
    (fun y =>
      (List.range' (bbox_lo (center padding max_radius col) (max max_value 1)
            (val * max_radius))
          (bbox_hi (center padding max_radius col) (max max_value 1) (val * max_radius)
              (u32_pred img_w) + 1
            - bbox_lo (center padding max_radius col) (max max_value 1)
                (val * max_radius))).map
        (fun x => (y, x)))

/-- The nested loops of `draw_cell_total` are the fold over the row-major
bounding-box pixel list. -/
lemma draw_cell_total_eq_foldl_pairs (img_w img_h padding max_radius max_value row col val : ℕ)
    (pixels : List ℕ) :
    draw_cell_total img_w img_h padding max_radius max_value row col val pixels
      = (bbox_pairs img_w img_h padding max_radius max_value row col val).foldl
          (fun b p =>
            if hits (max max_value 1) (val * max_radius)
                (center padding max_radius col) (center padding max_radius row) p.2 p.1 then
              b.set ((p.1 * img_w + p.2) % 4294967296) 1
            else b) pixels := by
  unfold draw_cell_total bbox_pairs
  rw [foldl_flatMap]
  congr 1
  funext c y
  rw [List.foldl_map]

/-- A pixel inside a circle lies horizontally and vertically within
the radius of the center. -/
lemma in_circle_bounds (padding max_radius max_value val row col x y : ℕ)
    (h : in_circle padding max_radius max_value val row col x y) :
    (((center padding max_radius col : ℕ) : ℚ) - radius val max_value max_radius ≤ (x : ℚ) ∧
      (x : ℚ) ≤ ((center padding max_radius col : ℕ) : ℚ) + radius val max_value max_radius) ∧
    (((center padding max_radius row : ℕ) : ℚ) - radius val max_value max_radius ≤ (y : ℚ) ∧
      (y : ℚ) ≤ ((center padding max_radius row : ℕ) : ℚ) + radius val max_value max_radius) := by
  unfold in_circle at h
  have hr := radius_nonneg val max_value max_radius
  have hx2 : ((x : ℚ) - ((center padding max_radius col : ℕ) : ℚ)) ^ 2
      ≤ radius val max_value max_radius ^ 2 := by
    nlinarith [sq_nonneg ((y : ℚ) - ((center padding max_radius row : ℕ) : ℚ))]
  have hy2 : ((y : ℚ) - ((center padding max_radius row : ℕ) : ℚ)) ^ 2
      ≤ radius val max_value max_radius ^ 2 := by
    nlinarith [sq_nonneg ((x : ℚ) - ((center padding max_radius col : ℕ) : ℚ))]
  have hx := abs_le_of_sq_le_sq' hx2 hr
  have hy := abs_le_of_sq_le_sq' hy2 hr
  exact ⟨⟨by linarith [hx.1], by linarith [hx.2]⟩, ⟨by linarith [hy.1], by linarith [hy.2]⟩⟩

/-- A coordinate at most `r` left of the center is at or beyond the
lower bbox edge. -/
lemma bbox_lo_le (c max_value val max_radius q : ℕ)
    (h : ((c : ℕ) : ℚ) - radius val max_value max_radius ≤ (q : ℚ)) :
    bbox_lo c (max max_value 1) (val * max_radius) ≤ q := by
  set mx := max max_value 1 with hmx
  have hmx0 : 0 < mx := lt_of_lt_of_le Nat.one_pos (Nat.le_max_right _ _)
  have hmxq : (0 : ℚ) < (mx : ℚ) := mx_pos_q max_value
  set vR := val * max_radius with hvR
  have hq : (c : ℚ) * (mx : ℚ) ≤ (q : ℚ) * (mx : ℚ) + (vR : ℚ) := by
    have h0 : ((max max_value 1 : ℕ) : ℚ) ≠ 0 := ne_of_gt (mx_pos_q max_value)
    have hrm : radius val max_value max_radius * (mx : ℚ) = (vR : ℚ) := by
      rw [radius_eq_div, hvR, hmx]
      exact div_mul_cancel₀ _ h0
    nlinarith [h, hmxq]
  have hn : c * mx ≤ q * mx + vR := by exact_mod_cast hq
  have hsub : c * mx - vR ≤ q * mx := by omega
  calc bbox_lo c mx vR = (c * mx - vR) / mx := rfl
    _ ≤ (q * mx) / mx := Nat.div_le_div_right hsub
    _ = q := Nat.mul_div_cancel q hmx0

/-- A coordinate at most `r` right of the center and within the clip
limit is at or below the upper bbox edge. -/
lemma le_bbox_hi (c max_value val max_radius lim q : ℕ)
    (h : (q : ℚ) ≤ ((c : ℕ) : ℚ) + radius val max_value max_radius)
    (hlim : q ≤ lim) :
    q ≤ bbox_hi c (max max_value 1) (val * max_radius) lim := by
  set mx := max max_value 1 with hmx
  have hmx0 : 0 < mx := lt_of_lt_of_le Nat.one_pos (Nat.le_max_right _ _)
  have hmxq : (0 : ℚ) < (mx : ℚ) := mx_pos_q max_value
  set vR := val * max_radius with hvR
  have hq : (q : ℚ) * (mx : ℚ) ≤ (c : ℚ) * (mx : ℚ) + (vR : ℚ) := by
    have h0 : ((max max_value 1 : ℕ) : ℚ) ≠ 0 := ne_of_gt (mx_pos_q max_value)
    have hrm : radius val max_value max_radius * (mx : ℚ) = (vR : ℚ) := by
      rw [radius_eq_div, hvR, hmx]
      exact div_mul_cancel₀ _ h0
    nlinarith [h, hmxq]
  have hn : q * mx ≤ c * mx + vR := by exact_mod_cast hq
  refine le_min ?_ hlim
  rw [Nat.le_div_iff_mul_le hmx0]
  omega

/-- Bridge between the bounding-box scan of `draw_cell_total` and the pure
geometric statement: position `j` of the canvas is written by the
cell's scan exactly when `j` is a canvas position whose pixel lies in
the cell's circle. -/
lemma bbox_pairs_cover_iff (img_w img_h padding max_radius max_value row col val j : ℕ)
    (hw : 0 < img_w) (hh : 0 < img_h) (hsz : img_w * img_h ≤ 4294967296) :
    (∃ p ∈ bbox_pairs img_w img_h padding max_radius max_value row col val,
        hits (max max_value 1) (val * max_radius)
          (center padding max_radius col) (center padding max_radius row) p.2 p.1 ∧
        (p.1 * img_w + p.2) % 4294967296 = j)
      ↔ (j < img_w * img_h ∧
          in_circle padding max_radius max_value val row col (j % img_w) (j / img_w)) := by
  have hwp : u32_pred img_w = img_w - 1 := by
    unfold u32_pred
    rw [if_neg (by omega)]
  have hhp : u32_pred img_h = img_h - 1 := by
    unfold u32_pred
    rw [if_neg (by omega)]
  constructor
  · rintro ⟨p, hp, hhit, hpos⟩
    rw [bbox_pairs, List.mem_flatMap] at hp
    obtain ⟨y, hy', hxmem⟩ := hp
    rw [List.mem_map] at hxmem
    obtain ⟨x, hx', rfl⟩ := hxmem
    dsimp only at hhit hpos
    rw [mem_range_one] at hy' hx'
    have hyhi : y ≤ bbox_hi (center padding max_radius row) (max max_value 1)
        (val * max_radius) (u32_pred img_h) := by omega
    have hxhi : x ≤ bbox_hi (center padding max_radius col) (max max_value 1)
        (val * max_radius) (u32_pred img_w) := by omega
    have hylt : y < img_h := by
      have := min_le_right ((center padding max_radius row * (max max_value 1)
        + val * max_radius + (max max_value 1 - 1)) / (max max_value 1)) (u32_pred img_h)
      have : y ≤ u32_pred img_h := le_trans hyhi this
      omega
    have hxlt : x < img_w := by
      have := min_le_right ((center padding max_radius col * (max max_value 1)
        + val * max_radius + (max max_value 1 - 1)) / (max max_value 1)) (u32_pred img_w)
      have : x ≤ u32_pred img_w := le_trans hxhi this
      omega
    have hidx : y * img_w + x < img_w * img_h := by
      calc y * img_w + x < y * img_w + img_w := by omega
        _ = (y + 1) * img_w := by ring
        _ ≤ img_h * img_w := Nat.mul_le_mul_right _ (by omega)
        _ = img_w * img_h := Nat.mul_comm _ _
    have hmod : (y * img_w + x) % 4294967296 = y * img_w + x :=
      Nat.mod_eq_of_lt (lt_of_lt_of_le hidx hsz)
    have hj : j = y * img_w + x := by omega
    subst hj
    refine ⟨hidx, ?_⟩
    have hjx : (y * img_w + x) % img_w = x := by
      rw [Nat.add_comm, Nat.mul_comm, Nat.add_mul_mod_self_left, Nat.mod_eq_of_lt hxlt]
    have hjy : (y * img_w + x) / img_w = y := by
      rw [Nat.add_comm, Nat.mul_comm, Nat.add_mul_div_left _ _ hw, Nat.div_eq_of_lt hxlt,
        Nat.zero_add]
    rw [hjx, hjy]
    exact (hits_iff_in_circle padding max_radius max_value val row col x y).mp hhit
  · rintro ⟨hj, hcirc⟩
    set qx := j % img_w with hqx
    set qy := j / img_w with hqy
    have hqxlt : qx < img_w := Nat.mod_lt _ hw
    have hqylt : qy < img_h := by
      rw [hqy, Nat.div_lt_iff_lt_mul hw]
      calc j < img_w * img_h := hj
        _ = img_h * img_w := Nat.mul_comm _ _
    obtain ⟨⟨hxl, hxr⟩, ⟨hyl, hyr⟩⟩ := in_circle_bounds _ _ _ _ _ _ _ _ hcirc
    have hx0 : bbox_lo (center padding max_radius col) (max max_value 1)
        (val * max_radius) ≤ qx := bbox_lo_le _ _ _ _ _ hxl
    have hy0 : bbox_lo (center padding max_radius row) (max max_value 1)
        (val * max_radius) ≤ qy := bbox_lo_le _ _ _ _ _ hyl
    have hx1 : qx ≤ bbox_hi (center padding max_radius col) (max max_value 1)
        (val * max_radius) (u32_pred img_w) :=
      le_bbox_hi _ _ _ _ _ _ hxr (by omega)
    have hy1 : qy ≤ bbox_hi (center padding max_radius row) (max max_value 1)
        (val * max_radius) (u32_pred img_h) :=
      le_bbox_hi _ _ _ _ _ _ hyr (by omega)
    refine ⟨(qy, qx), ?_, ?_, ?_⟩
    · rw [bbox_pairs, List.mem_flatMap]
      refine ⟨qy, ?_, ?_⟩
      · rw [mem_range_one]
        omega
      · rw [List.mem_map]
        exact ⟨qx, by rw [mem_range_one]; omega, rfl⟩
    · exact (hits_iff_in_circle padding max_radius max_value val row col qx qy).mpr hcirc
    · show (qy * img_w + qx) % 4294967296 = j
      have hrec : qy * img_w + qx = j := by
        rw [hqx, hqy, Nat.mul_comm]
        exact Nat.div_add_mod j img_w
      rw [hrec]
      exact Nat.mod_eq_of_lt (lt_of_lt_of_le hj hsz)

/-- Full characterization of `draw_cell_total` on a well-sized canvas
buffer. -/
lemma draw_cell_total_char (img_w img_h padding max_radius max_value row col val : ℕ)
    (hw : 0 < img_w) (hh : 0 < img_h) (hsz : img_w * img_h ≤ 4294967296)
    (b : List ℕ) (hb : b.length = img_w * img_h) :
    (draw_cell_total img_w img_h padding max_radius max_value row col val b).length
      = img_w * img_h ∧
    ∀ j, ((j < img_w * img_h ∧
            in_circle padding max_radius max_value val row col (j % img_w) (j / img_w)) →
            (draw_cell_total img_w img_h padding max_radius max_value row col val b)[j]?
              = some 1) ∧
         ((¬ (j < img_w * img_h ∧
            in_circle padding max_radius max_value val row col (j % img_w) (j / img_w))) →
            (draw_cell_total img_w img_h padding max_radius max_value row col val b)[j]?
              = b[j]?) := by
  have hmain := foldl_paint_char (img_w * img_h)
    (fun b p =>
      if hits (max max_value 1) (val * max_radius)
          (center padding max_radius col) (center padding max_radius row) p.2 p.1 then
        b.set ((p.1 * img_w + p.2) % 4294967296) 1
      else b)
    (fun p j =>
      hits (max max_value 1) (val * max_radius)
        (center padding max_radius col) (center padding max_radius row) p.2 p.1 ∧
      (p.1 * img_w + p.2) % 4294967296 = j)
    (by
      intro bb p hbb
      dsimp only
      split
      · rw [List.length_set]
        exact hbb
      · exact hbb)
    (by
      rintro bb p j hbb ⟨hhit, hpos⟩
      dsimp only
      rw [if_pos hhit, ← hpos, getElem?_set_one, hbb])
    (by
      intro bb p j hbb hnc
      dsimp only
      split
      · rename_i hhit
        have hne : (p.1 * img_w + p.2) % 4294967296 ≠ j := fun he => hnc ⟨hhit, he⟩
        rw [List.getElem?_set_ne hne]
      · rfl)
    (bbox_pairs img_w img_h padding max_radius max_value row col val) b hb
  obtain ⟨hlen, hchar⟩ := hmain
  rw [← draw_cell_total_eq_foldl_pairs] at hlen hchar
  refine ⟨hlen, fun j => ⟨?_, ?_⟩⟩
  · intro hcov
    rw [(hchar j).1 ((bbox_pairs_cover_iff img_w img_h padding max_radius max_value
        row col val j hw hh hsz).mpr hcov), if_pos hcov.1]
  · intro hncov
    exact (hchar j).2 (fun hex => hncov
      ((bbox_pairs_cover_iff img_w img_h padding max_radius max_value
        row col val j hw hh hsz).mp hex))

/-- Every bounding-box coordinate pair lies inside the (positive)
canvas: the source clamps the scan to `img_w - 1` / `img_h - 1`. -/
lemma bbox_pairs_lt (img_w img_h padding max_radius max_value row col val : ℕ)
    (hw : 0 < img_w) (hh : 0 < img_h) (p : ℕ × ℕ)
    (hp : p ∈ bbox_pairs img_w img_h padding max_radius max_value row col val) :
    p.1 < img_h ∧ p.2 < img_w := by
  have hwp : u32_pred img_w = img_w - 1 := by
    unfold u32_pred
    rw [if_neg (by omega)]
  have hhp : u32_pred img_h = img_h - 1 := by
    unfold u32_pred
    rw [if_neg (by omega)]
  rw [bbox_pairs, List.mem_flatMap] at hp
  obtain ⟨y, hy', hxmem⟩ := hp
  rw [List.mem_map] at hxmem
  obtain ⟨x, hx', rfl⟩ := hxmem
  rw [mem_range_one] at hy' hx'
  have hyhi : y ≤ bbox_hi (center padding max_radius row) (max max_value 1)
      (val * max_radius) (u32_pred img_h) := by omega
  have hxhi : x ≤ bbox_hi (center padding max_radius col) (max max_value 1)
      (val * max_radius) (u32_pred img_w) := by omega
  constructor
  · have h1 := min_le_right ((center padding max_radius row * (max max_value 1)
      + val * max_radius + (max max_value 1 - 1)) / (max max_value 1)) (u32_pred img_h)
    have h2 : y ≤ u32_pred img_h := le_trans hyhi h1
    show y < img_h
    omega
  · have h1 := min_le_right ((center padding max_radius col * (max max_value 1)
      + val * max_radius + (max max_value 1 - 1)) / (max max_value 1)) (u32_pred img_w)
    have h2 : x ≤ u32_pred img_w := le_trans hxhi h1
    show x < img_w
    omega

/-- The nested loops of `draw_cell` are the Option-threaded fold over
the row-major bounding-box pixel list. -/
lemma draw_cell_eq_foldl_pairs (img_w img_h padding max_radius max_value row col val : ℕ)
    (pixels : List ℕ) :
    draw_cell img_w img_h padding max_radius max_value row col val pixels
      = (bbox_pairs img_w img_h padding max_radius max_value row col val).foldl
          (fun ob p => ob.bind (fun b2 =>
            if hits (max max_value 1) (val * max_radius)
                (center padding max_radius col) (center padding max_radius row) p.2 p.1 then
              checked_set b2 ((p.1 * img_w + p.2) % 4294967296) 1
            else some b2)) (some pixels) := by
  unfold draw_cell bbox_pairs
  rw [foldl_flatMap]
  congr 1
  funext c y
  rw [List.foldl_map]

/-- An Option-threaded fold in which every step succeeds on inputs
satisfying an invariant computes the pure fold. -/
lemma foldl_opt_all_some {σ : Type} (fo : List ℕ → σ → Option (List ℕ))
    (f : List ℕ → σ → List ℕ) (P : List ℕ → Prop) (L : List σ)
    (hstep : ∀ b s, s ∈ L → P b → fo b s = some (f b s) ∧ P (f b s)) :
    ∀ b, P b → L.foldl (fun ob s => ob.bind (fun bb => fo bb s)) (some b)
      = some (L.foldl f b) := by
  induction L with
  | nil => intro b _; rfl
  | cons s t ih =>
    intro b hb
    have h := hstep b s (List.mem_cons_self s t) hb
    rw [List.foldl_cons, List.foldl_cons, Option.some_bind, h.1]
    exact ih (fun b2 u hu hb2 => hstep b2 u (List.mem_cons_of_mem s hu) hb2) _ h.2

/-- On a canvas-sized buffer of a positive canvas whose area is below
`2^32`, every pixel write of `draw_cell` is in range: the checked
paint succeeds and computes `draw_cell_total`. -/
lemma draw_cell_eq_total (img_w img_h padding max_radius max_value row col val : ℕ)
    (hw : 0 < img_w) (hh : 0 < img_h) (hsz : img_w * img_h < 4294967296)
    (b : List ℕ) (hb : b.length = img_w * img_h) :
    draw_cell img_w img_h padding max_radius max_value row col val b
      = some (draw_cell_total img_w img_h padding max_radius max_value row col val b) := by
  rw [draw_cell_eq_foldl_pairs, draw_cell_total_eq_foldl_pairs]
  refine foldl_opt_all_some _ _ (fun bb : List ℕ => bb.length = img_w * img_h) _ ?_ b hb
  intro bb p hp hbb
  obtain ⟨hp1, hp2⟩ := bbox_pairs_lt img_w img_h padding max_radius max_value
    row col val hw hh p hp
  have hidx : p.1 * img_w + p.2 < img_w * img_h :=
    calc p.1 * img_w + p.2 < p.1 * img_w + img_w := by omega
      _ = (p.1 + 1) * img_w := by ring
      _ ≤ img_h * img_w := Nat.mul_le_mul_right _ (by omega)
      _ = img_w * img_h := Nat.mul_comm _ _
  have hmod : (p.1 * img_w + p.2) % 4294967296 = p.1 * img_w + p.2 :=
    Nat.mod_eq_of_lt (by omega)
  dsimp only
  by_cases hhit : hits (max max_value 1) (val * max_radius)
      (center padding max_radius col) (center padding max_radius row) p.2 p.1
  · rw [if_pos hhit, if_pos hhit]
    unfold checked_set
    rw [if_pos (by rw [hbb, hmod]; exact hidx)]
    exact ⟨rfl, by rw [List.length_set]; exact hbb⟩
  · rw [if_neg hhit, if_neg hhit]
    exact ⟨rfl, hbb⟩

/-! ## Frame-level machinery -/

/-- Row-major list of the grid cells `(row, col)` scanned by the frame
loop. -/
def cell_pairs (grid_w grid_h : ℕ) : List (ℕ × ℕ) :=
  (List.range grid_h).flatMap (fun row => (List.range grid_w).map (fun col => (row, col)))

/-- Membership in `cell_pairs`. -/
lemma mem_cell_pairs (grid_w grid_h : ℕ) (rc : ℕ × ℕ) :
    rc ∈ cell_pairs grid_w grid_h ↔ rc.1 < grid_h ∧ rc.2 < grid_w := by
  unfold cell_pairs
  rw [List.mem_flatMap]
  constructor
  · rintro ⟨row, hrow, hmem⟩
    rw [List.mem_map] at hmem
    obtain ⟨col, hcol, rfl⟩ := hmem
    rw [List.mem_range] at hrow hcol
    exact ⟨hrow, hcol⟩
  · rintro ⟨h1, h2⟩
    refine ⟨rc.1, List.mem_range.mpr h1, ?_⟩
    rw [List.mem_map]
    exact ⟨rc.2, List.mem_range.mpr h2, rfl⟩

/-- The nested loops of `draw_frame_total` are the fold over the
row-major cell list. -/
lemma draw_frame_total_eq_foldl_pairs
    (img_w img_h grid_w grid_h padding max_radius max_value : ℕ) (cells : List ℕ) :
    draw_frame_total img_w img_h grid_w grid_h padding max_radius max_value cells
      = (cell_pairs grid_w grid_h).foldl
          (fun b rc => draw_cell_total img_w img_h padding max_radius max_value rc.1 rc.2
            (cells.getD (rc.1 * grid_w + rc.2) 0) b)
          (List.replicate ((img_w * img_h) % 4294967296) 2) := by
  unfold draw_frame_total cell_pairs
  rw [foldl_flatMap]
  congr 1
  funext b row
  rw [List.foldl_map]

/-- The nested loops of `draw_frame` are the Option-threaded fold over
the row-major cell list. -/
lemma draw_frame_eq_foldl_pairs
    (img_w img_h grid_w grid_h padding max_radius max_value : ℕ) (cells : List ℕ) :
    draw_frame img_w img_h grid_w grid_h padding max_radius max_value cells
      = (cell_pairs grid_w grid_h).foldl
          (fun ob rc => ob.bind (fun b =>
            (cells[rc.1 * grid_w + rc.2]?).bind (fun val =>
              draw_cell img_w img_h padding max_radius max_value rc.1 rc.2 val b)))
          (some (List.replicate ((img_w * img_h) % 4294967296) 2)) := by
  unfold draw_frame cell_pairs
  rw [foldl_flatMap]
  congr 1
  funext ob row
  rw [List.foldl_map]

/-- An Option-threaded read-and-paint fold that starts from `none`
stays `none`. -/
lemma foldl_opt_none {σ : Type} (step : List ℕ → σ → Option (List ℕ)) (L : List σ) :
    L.foldl (fun ob s => ob.bind (fun b => step b s)) none = none := by
  induction L with
  | nil => rfl
  | cons s t ih => simpa using ih

/-- An Option-threaded fold one of whose steps fails on every input
aborts. -/
lemma foldl_opt_oob {σ : Type} (fo : List ℕ → σ → Option (List ℕ)) (L : List σ)
    (hbad : ∃ s ∈ L, ∀ b, fo b s = none) :
    ∀ ob, L.foldl (fun ob s => ob.bind (fun bb => fo bb s)) ob = none := by
  induction L with
  | nil =>
    obtain ⟨s, hs, _⟩ := hbad
    exact absurd hs (List.not_mem_nil s)
  | cons s t ih =>
    intro ob
    rw [List.foldl_cons]
    obtain ⟨u, hu, hnu⟩ := hbad
    rcases List.mem_cons.mp hu with heq | hmem
    · subst heq
      have hstep : ob.bind (fun bb => fo bb u) = none := by
        cases ob with
        | none => rfl
        | some b =>
          rw [Option.some_bind]
          exact hnu b
      rw [hstep]
      exact foldl_opt_none _ t
    · exact ih ⟨u, hmem, hnu⟩ _

/-- All cell reads of a frame are in range exactly when the buffer has
at least `grid_w * grid_h` entries. -/
lemma cell_reads_iff (grid_w grid_h L : ℕ) :
    (∀ rc ∈ cell_pairs grid_w grid_h, rc.1 * grid_w + rc.2 < L)
      ↔ grid_w * grid_h ≤ L := by
  constructor
  · intro hall
    rcases Nat.eq_zero_or_pos (grid_w * grid_h) with h0 | hpos
    · omega
    · have hgw : 0 < grid_w := by
        rcases Nat.eq_zero_or_pos grid_w with h | h
        · rw [h] at hpos; omega
        · exact h
      have hgh : 0 < grid_h := by
        rcases Nat.eq_zero_or_pos grid_h with h | h
        · rw [h] at hpos; simp at hpos
        · exact h
      have hmem : ((grid_h - 1, grid_w - 1) : ℕ × ℕ) ∈ cell_pairs grid_w grid_h := by
        rw [mem_cell_pairs]
        constructor <;> (dsimp only; omega)
      have := hall _ hmem
      dsimp only at this
      have h1 : (grid_h - 1) * grid_w = grid_h * grid_w - grid_w := by
        rw [Nat.sub_mul, Nat.one_mul]
      have h2 : grid_w ≤ grid_h * grid_w := Nat.le_mul_of_pos_left _ hgh
      have h3 : grid_h * grid_w = grid_w * grid_h := Nat.mul_comm _ _
      omega
  · intro hle rc hrc
    rw [mem_cell_pairs] at hrc
    obtain ⟨h1, h2⟩ := hrc
    have hlt : rc.1 * grid_w + rc.2 < grid_w * grid_h :=
      calc rc.1 * grid_w + rc.2 < rc.1 * grid_w + grid_w := by omega
        _ = (rc.1 + 1) * grid_w := by ring
        _ ≤ grid_h * grid_w := Nat.mul_le_mul_right _ (by omega)
        _ = grid_w * grid_h := Nat.mul_comm _ _
    omega

/-- On a positive canvas whose area is below `2^32`, with every cell
read in range, `draw_frame` succeeds and computes `draw_frame_total`. -/
lemma draw_frame_eq_some
    (img_w img_h grid_w grid_h padding max_radius max_value : ℕ) (cells : List ℕ)
    (hw : 0 < img_w) (hh : 0 < img_h) (hsz : img_w * img_h < 4294967296)
    (hread : grid_w * grid_h ≤ cells.length) :
    draw_frame img_w img_h grid_w grid_h padding max_radius max_value cells
      = some (draw_frame_total img_w img_h grid_w grid_h padding max_radius max_value
          cells) := by
  rw [draw_frame_eq_foldl_pairs, draw_frame_total_eq_foldl_pairs]
  refine foldl_opt_all_some _ _ (fun b : List ℕ => b.length = img_w * img_h) _ ?_ _
    (by
      show (List.replicate ((img_w * img_h) % 4294967296) 2).length = img_w * img_h
      rw [List.length_replicate]
      exact Nat.mod_eq_of_lt hsz)
  intro b rc hrc hb
  have hidx : rc.1 * grid_w + rc.2 < cells.length :=
    (cell_reads_iff grid_w grid_h cells.length).mpr hread rc hrc
  have hread' : (cells[rc.1 * grid_w + rc.2]?)
      = some (cells.getD (rc.1 * grid_w + rc.2) 0) := by
    rw [List.getElem?_eq_getElem hidx, List.getD_eq_getElem?_getD,
      List.getElem?_eq_getElem hidx]
    rfl
  constructor
  · dsimp only
    rw [hread', Option.some_bind]
    exact draw_cell_eq_total _ _ _ _ _ _ _ _ hw hh hsz b hb
  · dsimp only
    rw [draw_cell_total_length]
    exact hb

/-- With a buffer shorter than the first frame's grid demands, the
frame paint panics (`none`). -/
lemma draw_frame_eq_none
    (img_w img_h grid_w grid_h padding max_radius max_value : ℕ) (cells : List ℕ)
    (hshort : cells.length < grid_w * grid_h) :
    draw_frame img_w img_h grid_w grid_h padding max_radius max_value cells = none := by
  rw [draw_frame_eq_foldl_pairs]
  have hgw : 0 < grid_w := by
    rcases Nat.eq_zero_or_pos grid_w with h | h
    · rw [h] at hshort; simp at hshort
    · exact h
  have hgh : 0 < grid_h := by
    rcases Nat.eq_zero_or_pos grid_h with h | h
    · rw [h] at hshort; simp at hshort
    · exact h
  refine foldl_opt_oob _ _
    ⟨(cells.length / grid_w, cells.length % grid_w), ?_, ?_⟩ _
  · rw [mem_cell_pairs]
    refine ⟨?_, Nat.mod_lt _ hgw⟩
    dsimp only
    rw [Nat.div_lt_iff_lt_mul hgw]
    calc cells.length < grid_w * grid_h := hshort
      _ = grid_h * grid_w := Nat.mul_comm _ _
  · intro b
    dsimp only
    have hix : cells.length / grid_w * grid_w + cells.length % grid_w = cells.length := by
      rw [Nat.mul_comm, Nat.div_add_mod]
    have hread : (cells[cells.length / grid_w * grid_w + cells.length % grid_w]?)
        = none := by
      rw [hix]
      exact List.getElem?_eq_none (le_refl _)
    rw [hread, Option.none_bind]

/-- Full characterization of one painted frame: an in-range position
`j` holds `DOT` (palette index 1) exactly when some grid cell's circle
covers the pixel `(j % img_w, j / img_w)`, and otherwise keeps the
`TRANSPARENT` fill (palette index 2); the length is the canvas area. -/
lemma draw_frame_total_char
    (img_w img_h grid_w grid_h padding max_radius max_value : ℕ) (cells : List ℕ)
    (hw : 0 < img_w) (hh : 0 < img_h) (hsz : img_w * img_h < 4294967296) :
    (draw_frame_total img_w img_h grid_w grid_h padding max_radius max_value
        cells).length = img_w * img_h ∧
    ∀ j < img_w * img_h,
      (covered grid_w grid_h padding max_radius max_value cells (j % img_w) (j / img_w) →
        (draw_frame_total img_w img_h grid_w grid_h padding max_radius max_value
          cells)[j]? = some 1) ∧
      (¬ covered grid_w grid_h padding max_radius max_value cells (j % img_w) (j / img_w) →
        (draw_frame_total img_w img_h grid_w grid_h padding max_radius max_value
          cells)[j]? = some 2) := by
  have hmain := foldl_paint_char (img_w * img_h)
    (fun b rc => draw_cell_total img_w img_h padding max_radius max_value rc.1 rc.2
      (cells.getD (rc.1 * grid_w + rc.2) 0) b)
    (fun rc j => j < img_w * img_h ∧
      in_circle padding max_radius max_value (cells.getD (rc.1 * grid_w + rc.2) 0)
        rc.1 rc.2 (j % img_w) (j / img_w))
    (by
      intro b rc hb
      dsimp only
      rw [draw_cell_total_length]
      exact hb)
    (by
      intro b rc j hb hcov
      dsimp only
      rw [if_pos hcov.1]
      exact ((draw_cell_total_char img_w img_h padding max_radius max_value rc.1 rc.2 _
        hw hh (le_of_lt hsz) b hb).2 j).1 hcov)
    (by
      intro b rc j hb hnc
      exact ((draw_cell_total_char img_w img_h padding max_radius max_value rc.1 rc.2 _
        hw hh (le_of_lt hsz) b hb).2 j).2 hnc)
    (cell_pairs grid_w grid_h) (List.replicate ((img_w * img_h) % 4294967296) 2)
    (by rw [List.length_replicate]; exact Nat.mod_eq_of_lt hsz)
  obtain ⟨hlen, hchar⟩ := hmain
  rw [← draw_frame_total_eq_foldl_pairs] at hlen hchar
  refine ⟨hlen, fun j hj => ⟨?_, ?_⟩⟩
  · intro hcov
    obtain ⟨row, hrow, col, hcol, hcirc⟩ := hcov
    have hex : ∃ rc ∈ cell_pairs grid_w grid_h, j < img_w * img_h ∧
        in_circle padding max_radius max_value (cells.getD (rc.1 * grid_w + rc.2) 0)
          rc.1 rc.2 (j % img_w) (j / img_w) :=
      ⟨(row, col), (mem_cell_pairs _ _ _).mpr ⟨hrow, hcol⟩, hj, hcirc⟩
    rw [(hchar j).1 hex, if_pos hj]
  · intro hncov
    have hnex : ¬ ∃ rc ∈ cell_pairs grid_w grid_h, j < img_w * img_h ∧
        in_circle padding max_radius max_value (cells.getD (rc.1 * grid_w + rc.2) 0)
          rc.1 rc.2 (j % img_w) (j / img_w) := by
      rintro ⟨rc, hrc, _, hcirc⟩
      rw [mem_cell_pairs] at hrc
      exact hncov ⟨rc.1, hrc.1, rc.2, hrc.2, hcirc⟩
    rw [(hchar j).2 hnex, Nat.mod_eq_of_lt hsz, List.getElem?_replicate_of_lt hj]

/-- Pointwise-successful `mapM` over `Option`. -/
lemma mapM_eq_some {α β : Type} (f : α → Option β) (g : α → β) (l : List α)
    (h : ∀ a ∈ l, f a = some (g a)) : l.mapM f = some (l.map g) := by
  induction l with
  | nil => rfl
  | cons a t ih =>
    rw [List.mapM_cons, h a (List.mem_cons_self a t),
      ih (fun x hx => h x (List.mem_cons_of_mem a hx))]
    rfl

/-- A failing element makes `mapM` over `Option` fail. -/
lemma mapM_eq_none {α β : Type} (f : α → Option β) (l : List α)
    (h : ∃ a ∈ l, f a = none) : l.mapM f = none := by
  induction l with
  | nil =>
    obtain ⟨a, ha, _⟩ := h
    exact absurd ha (List.not_mem_nil a)
  | cons a t ih =>
    rw [List.mapM_cons]
    rcases Classical.em (f a = none) with hfa | hfa
    · rw [hfa]
      rfl
    · obtain ⟨b, hb⟩ := Option.ne_none_iff_exists'.mp hfa
      rw [hb]
      obtain ⟨u, hu, hfu⟩ := h
      rcases List.mem_cons.mp hu with heq | hmem
      · exact absurd hfu (by rw [← heq] at hfa; exact hfa)
      · rw [ih ⟨u, hmem, hfu⟩]
        rfl

/-- Unfolding `write_circles_gif` on a nonempty list. -/
lemma write_circles_gif_cons (f0 : DotFrame) (rest : List DotFrame)
    (padding max_radius max_value delay : ℕ) :
    write_circles_gif (f0 :: rest) padding max_radius max_value delay
      = ((f0 :: rest).mapM (fun df =>
          draw_frame ((f0.width * (2 * max_radius + padding) + padding) % 4294967296)
            ((f0.height * (2 * max_radius + padding) + padding) % 4294967296)
            f0.width f0.height padding max_radius max_value df.buffer)).map
          (fun bufs =>
            { width := ((f0.width * (2 * max_radius + padding) + padding) % 4294967296)
                % 65536
              height := ((f0.height * (2 * max_radius + padding) + padding) % 4294967296)
                % 65536
              palette := [0, 0, 0, 255, 255, 255]
              frames := bufs.map (fun pix =>
                { width := ((f0.width * (2 * max_radius + padding) + padding)
                    % 4294967296) % 65536
                  height := ((f0.height * (2 * max_radius + padding) + padding)
                    % 4294967296) % 65536
                  buffer := pix
                  delay := delay
                  transparent := some 2 }) }) := rfl

/-- A run of `write_circles_gif` on a positive canvas whose area is
below `2^32`, in which every frame's buffer covers the first frame's
grid: the encoder succeeds and writes one painted frame per input
frame, all sized from the first frame. -/
lemma write_circles_gif_eq_some (f0 : DotFrame) (rest : List DotFrame)
    (padding max_radius max_value delay : ℕ)
    (hw : 0 < (f0.width * (2 * max_radius + padding) + padding) % 4294967296)
    (hh : 0 < (f0.height * (2 * max_radius + padding) + padding) % 4294967296)
    (hsz : ((f0.width * (2 * max_radius + padding) + padding) % 4294967296)
        * ((f0.height * (2 * max_radius + padding) + padding) % 4294967296)
      < 4294967296)
    (hread : ∀ df ∈ f0 :: rest, f0.width * f0.height ≤ df.buffer.length) :
    write_circles_gif (f0 :: rest) padding max_radius max_value delay
      = some
          { width := ((f0.width * (2 * max_radius + padding) + padding) % 4294967296)
              % 65536
            height := ((f0.height * (2 * max_radius + padding) + padding) % 4294967296)
              % 65536
            palette := [0, 0, 0, 255, 255, 255]
            frames := (f0 :: rest).map (fun df =>
              { width := ((f0.width * (2 * max_radius + padding) + padding)
                  % 4294967296) % 65536
                height := ((f0.height * (2 * max_radius + padding) + padding)
                  % 4294967296) % 65536
                buffer := draw_frame_total
                  ((f0.width * (2 * max_radius + padding) + padding) % 4294967296)
                  ((f0.height * (2 * max_radius + padding) + padding) % 4294967296)
                  f0.width f0.height padding max_radius max_value df.buffer
                delay := delay
                transparent := some 2 }) } := by
  rw [write_circles_gif_cons,
    mapM_eq_some _
      (fun df => draw_frame_total
        ((f0.width * (2 * max_radius + padding) + padding) % 4294967296)
        ((f0.height * (2 * max_radius + padding) + padding) % 4294967296)
        f0.width f0.height padding max_radius max_value df.buffer)
      _
      (fun df hdf => draw_frame_eq_some _ _ _ _ _ _ _ _ hw hh hsz (hread df hdf)),
    Option.map_some', List.map_map]
  rfl

/-- A run of `write_circles_gif` in which some frame's buffer is
shorter than the first frame's grid demands: the out-of-bounds cell
read panics (`none`). -/
lemma write_circles_gif_eq_none (f0 : DotFrame) (rest : List DotFrame)
    (padding max_radius max_value delay : ℕ)
    (hbad : ∃ df ∈ f0 :: rest, df.buffer.length < f0.width * f0.height) :
    write_circles_gif (f0 :: rest) padding max_radius max_value delay = none := by
  rw [write_circles_gif_cons]
  obtain ⟨df, hdf, hshort⟩ := hbad
  rw [mapM_eq_none _ _ ⟨df, hdf, draw_frame_eq_none _ _ _ _ _ _ _ _ hshort⟩]
  rfl

/-- Painting a whole frame always produces a buffer of the allocated
(`u32`-wrapped) size. -/
lemma draw_frame_total_length
    (img_w img_h grid_w grid_h padding max_radius max_value : ℕ) (cells : List ℕ) :
    (draw_frame_total img_w img_h grid_w grid_h padding max_radius max_value
      cells).length = (img_w * img_h) % 4294967296 := by
  unfold draw_frame_total
  refine foldl_preserve (fun b : List ℕ => b.length = (img_w * img_h) % 4294967296) _ _ _
    (List.length_replicate _ _) ?_
  intro b row _ hbl
  refine foldl_preserve (fun b : List ℕ => b.length = (img_w * img_h) % 4294967296) _ _ _
    hbl ?_
  intro b2 col _ hb2
  dsimp only
  rw [draw_cell_total_length]
  exact hb2

/-! ## Claim C6: fill policy of the rasterizer -/

/-- Claim C6: in every rasterized canvas frame, a pixel's palette index
is `DOT` (1) iff its squared distance to the center of some cell's
circle is at most that circle's squared radius (`covered`); every
other pixel is `TRANSPARENT` (2); and the `BACKGROUND` index (0) never
occurs in the buffer.  Stated for the rasterizer `draw_frame` on a
positive canvas whose area is below `2^32` (at `2^32` the `u32`
allocation wraps and the pixel writes panic), with every cell read in
range (a shorter buffer panics instead, see C7). -/
theorem c6_fill_policy (img_w img_h grid_w grid_h padding max_radius max_value : ℕ)
    (cells : List ℕ)
    (hw : 0 < img_w) (hh : 0 < img_h) (hsz : img_w * img_h < 4294967296)
    (hread : grid_w * grid_h ≤ cells.length) :
    draw_frame img_w img_h grid_w grid_h padding max_radius max_value cells
      = some (draw_frame_total img_w img_h grid_w grid_h padding max_radius max_value
          cells) ∧
    (∀ j : ℕ, j < img_w * img_h →
      ((draw_frame_total img_w img_h grid_w grid_h padding max_radius max_value
            cells)[j]? = some 1
        ↔ covered grid_w grid_h padding max_radius max_value cells
            (j % img_w) (j / img_w)) ∧
      (¬ covered grid_w grid_h padding max_radius max_value cells
            (j % img_w) (j / img_w) →
        (draw_frame_total img_w img_h grid_w grid_h padding max_radius max_value
          cells)[j]? = some 2)) ∧
    ∀ j : ℕ, (draw_frame_total img_w img_h grid_w grid_h padding max_radius max_value
        cells)[j]? ≠ some 0 := by
  obtain ⟨hlen, hchar⟩ := draw_frame_total_char img_w img_h grid_w grid_h padding
    max_radius max_value cells hw hh hsz
  refine ⟨draw_frame_eq_some _ _ _ _ _ _ _ _ hw hh hsz hread, fun j hj => ⟨⟨?_, ?_⟩, ?_⟩, ?_⟩
  · intro h1
    by_contra hnc
    rw [(hchar j hj).2 hnc] at h1
    exact absurd (Option.some.inj h1) (by omega)
  · exact (hchar j hj).1
  · exact (hchar j hj).2
  · intro j
    rcases Nat.lt_or_ge j (img_w * img_h) with hj | hj
    · rcases Classical.em (covered grid_w grid_h padding max_radius max_value cells
          (j % img_w) (j / img_w)) with hc | hc
      · rw [(hchar j hj).1 hc]
        intro he
        exact absurd (Option.some.inj he) (by omega)
      · rw [(hchar j hj).2 hc]
        intro he
        exact absurd (Option.some.inj he) (by omega)
    · rw [List.getElem?_eq_none (by rw [hlen]; omega)]
      exact fun he => Option.noConfusion he

/-- Witness for C6: a 1×1 grid with intensity 1 of 1, padding 1,
radius 1, on the 4×4 canvas. -/
theorem c6_fill_policy_witness :
    0 < 4 ∧ 0 < 4 ∧ 4 * 4 < 4294967296 ∧ 1 * 1 ≤ ([1] : List ℕ).length ∧
    (draw_frame 4 4 1 1 1 1 1 [1] = some (draw_frame_total 4 4 1 1 1 1 1 [1]) ∧
    (∀ j : ℕ, j < 4 * 4 →
      ((draw_frame_total 4 4 1 1 1 1 1 [1])[j]? = some 1
        ↔ covered 1 1 1 1 1 [1] (j % 4) (j / 4)) ∧
      (¬ covered 1 1 1 1 1 [1] (j % 4) (j / 4) →
        (draw_frame_total 4 4 1 1 1 1 1 [1])[j]? = some 2)) ∧
    ∀ j : ℕ, (draw_frame_total 4 4 1 1 1 1 1 [1])[j]? ≠ some 0) :=
  ⟨by decide, by decide, by decide, by decide,
    c6_fill_policy 4 4 1 1 1 1 1 [1] (by decide) (by decide) (by decide) (by decide)⟩

/-! ## Claim C4: canvas sizing -/

/-- Claim C4: for a non-empty frame sequence whose first frame has grid
`gw × gh`, padding `p` and maximum radius `R`, the encoder computes
canvas dimensions exactly `gw*(2R+p)+p` by `gh*(2R+p)+p`, computed
once from the first frame, and uses them for every written frame (its
recorded dimensions and its buffer size), provided the true dimensions
are positive, fit the `u16` header, and every cell read is in range
(a zero dimension underflows `img_w - 1` and panics whenever a cell
paints, and a short buffer panics, see C7). -/
theorem c4_canvas_sizing (f0 : DotFrame) (rest : List DotFrame)
    (padding max_radius max_value delay : ℕ)
    (h0W : 0 < f0.width * (2 * max_radius + padding) + padding)
    (h0H : 0 < f0.height * (2 * max_radius + padding) + padding)
    (hW : f0.width * (2 * max_radius + padding) + padding < 65536)
    (hH : f0.height * (2 * max_radius + padding) + padding < 65536)
    (hread : ∀ df ∈ f0 :: rest, f0.width * f0.height ≤ df.buffer.length) :
    (write_circles_gif (f0 :: rest) padding max_radius max_value delay).isSome = true ∧
    ∀ out ∈ write_circles_gif (f0 :: rest) padding max_radius max_value delay,
      out.width = f0.width * (2 * max_radius + padding) + padding ∧
      out.height = f0.height * (2 * max_radius + padding) + padding ∧
      out.frames.length = (f0 :: rest).length ∧
      ∀ of ∈ out.frames,
        of.width = f0.width * (2 * max_radius + padding) + padding ∧
        of.height = f0.height * (2 * max_radius + padding) + padding ∧
        of.buffer.length
          = (f0.width * (2 * max_radius + padding) + padding)
            * (f0.height * (2 * max_radius + padding) + padding) := by
  have hW32 : f0.width * (2 * max_radius + padding) + padding < 4294967296 := by omega
  have hH32 : f0.height * (2 * max_radius + padding) + padding < 4294967296 := by omega
  have hmodW : ((f0.width * (2 * max_radius + padding) + padding) % 4294967296) % 65536
      = f0.width * (2 * max_radius + padding) + padding := by
    rw [Nat.mod_eq_of_lt hW32, Nat.mod_eq_of_lt hW]
  have hmodH : ((f0.height * (2 * max_radius + padding) + padding) % 4294967296) % 65536
      = f0.height * (2 * max_radius + padding) + padding := by
    rw [Nat.mod_eq_of_lt hH32, Nat.mod_eq_of_lt hH]
  have hsz32 : (f0.width * (2 * max_radius + padding) + padding)
      * (f0.height * (2 * max_radius + padding) + padding) < 4294967296 := by
    have := Nat.mul_le_mul
      (show f0.width * (2 * max_radius + padding) + padding ≤ 65535 by omega)
      (show f0.height * (2 * max_radius + padding) + padding ≤ 65535 by omega)
    omega
  rw [write_circles_gif_eq_some f0 rest padding max_radius max_value delay
    (by rw [Nat.mod_eq_of_lt hW32]; exact h0W)
    (by rw [Nat.mod_eq_of_lt hH32]; exact h0H)
    (by rw [Nat.mod_eq_of_lt hW32, Nat.mod_eq_of_lt hH32]; exact hsz32) hread]
  refine ⟨rfl, ?_⟩
  intro out hout
  rw [Option.mem_def] at hout
  obtain rfl : _ = out := Option.some.inj hout
  refine ⟨hmodW, hmodH, by rw [List.length_map], ?_⟩
  intro of hof
  rw [List.mem_map] at hof
  obtain ⟨df, _, rfl⟩ := hof
  refine ⟨hmodW, hmodH, ?_⟩
  rw [draw_frame_total_length, Nat.mod_eq_of_lt hW32, Nat.mod_eq_of_lt hH32,
    Nat.mod_eq_of_lt hsz32]

/-- Witness for C4: one 1×1 frame, padding 1, radius 1 (4×4 canvas). -/
theorem c4_canvas_sizing_witness :
    0 < (⟨1, 1, [1]⟩ : DotFrame).width * (2 * 1 + 1) + 1 ∧
    0 < (⟨1, 1, [1]⟩ : DotFrame).height * (2 * 1 + 1) + 1 ∧
    (⟨1, 1, [1]⟩ : DotFrame).width * (2 * 1 + 1) + 1 < 65536 ∧
    (⟨1, 1, [1]⟩ : DotFrame).height * (2 * 1 + 1) + 1 < 65536 ∧
    (∀ df ∈ [(⟨1, 1, [1]⟩ : DotFrame)],
      (⟨1, 1, [1]⟩ : DotFrame).width * (⟨1, 1, [1]⟩ : DotFrame).height
        ≤ df.buffer.length) ∧
    ((write_circles_gif [⟨1, 1, [1]⟩] 1 1 1 0).isSome = true ∧
    ∀ out ∈ write_circles_gif [⟨1, 1, [1]⟩] 1 1 1 0,
      out.width = (⟨1, 1, [1]⟩ : DotFrame).width * (2 * 1 + 1) + 1 ∧
      out.height = (⟨1, 1, [1]⟩ : DotFrame).height * (2 * 1 + 1) + 1 ∧
      out.frames.length = [(⟨1, 1, [1]⟩ : DotFrame)].length ∧
      ∀ of ∈ out.frames,
        of.width = (⟨1, 1, [1]⟩ : DotFrame).width * (2 * 1 + 1) + 1 ∧
        of.height = (⟨1, 1, [1]⟩ : DotFrame).height * (2 * 1 + 1) + 1 ∧
        of.buffer.length
          = ((⟨1, 1, [1]⟩ : DotFrame).width * (2 * 1 + 1) + 1)
            * ((⟨1, 1, [1]⟩ : DotFrame).height * (2 * 1 + 1) + 1)) :=
  ⟨by decide, by decide, by decide, by decide, by decide,
    c4_canvas_sizing ⟨1, 1, [1]⟩ [] 1 1 1 0 (by decide) (by decide) (by decide)
      (by decide) (by decide)⟩

/-! ## Claim C7: dimension mismatch after the first frame -/

/-- Counterexample to C7 as stated: the second frame's grid dimensions
(2×1) disagree with the first frame's (1×1), yet `write_circles_gif`
completes successfully — no `EncodeError` (and no failure of any kind)
is produced. -/
theorem c7_counterexample :
    ((⟨2, 1, [0, 0]⟩ : DotFrame).width, (⟨2, 1, [0, 0]⟩ : DotFrame).height)
        ≠ ((⟨1, 1, [0]⟩ : DotFrame).width, (⟨1, 1, [0]⟩ : DotFrame).height) ∧
    (write_circles_gif [⟨1, 1, [0]⟩, ⟨2, 1, [0, 0]⟩] 1 1 1 5).isSome = true := by
  decide

/-- Claim C7, amended: dimension disagreement after the first frame is
not detected and never yields an `EncodeError`: the encoder reads
every frame with the first frame's grid, so a frame whose cell buffer
is shorter than the `grid_w * grid_h` cells of the first frame's grid
aborts with an index panic (`none`) — an abort, not a recoverable
error result. -/
theorem c7_amended (f0 : DotFrame) (rest : List DotFrame)
    (padding max_radius max_value delay : ℕ)
    (hbad : ∃ df ∈ f0 :: rest, df.buffer.length < f0.width * f0.height) :
    write_circles_gif (f0 :: rest) padding max_radius max_value delay = none :=
  write_circles_gif_eq_none f0 rest padding max_radius max_value delay hbad

/-- Witness for C7 (amended): a second frame whose buffer is shorter
than the first frame's 1×1 grid demands ends in a panic. -/
theorem c7_amended_witness :
    (∃ df ∈ [(⟨1, 1, [0]⟩ : DotFrame), ⟨1, 1, []⟩],
      df.buffer.length
        < (⟨1, 1, [0]⟩ : DotFrame).width * (⟨1, 1, [0]⟩ : DotFrame).height) ∧
    write_circles_gif [⟨1, 1, [0]⟩, ⟨1, 1, []⟩] 1 1 1 5 = none :=
  ⟨by decide, c7_amended ⟨1, 1, [0]⟩ [⟨1, 1, []⟩] 1 1 1 5 (by decide)⟩

/-! ## Claim C10: `u16` narrowing of the canvas dimensions -/

/-- Claim C10: the canvas dimensions are computed in 32-bit arithmetic
but recorded in the header and in every written frame reduced modulo
`2^16`; when a true dimension reaches `65536` the recorded dimensions
wrap, no longer equal the true canvas dimensions, and no longer match
each frame's pixel-buffer length. -/
theorem c10_u16_wrap (f0 : DotFrame) (rest : List DotFrame)
    (padding max_radius max_value delay : ℕ)
    (htw : f0.width * (2 * max_radius + padding) + padding < 4294967296)
    (hth : f0.height * (2 * max_radius + padding) + padding < 4294967296)
    (hsz : (f0.width * (2 * max_radius + padding) + padding)
      * (f0.height * (2 * max_radius + padding) + padding) < 4294967296)
    (h0w : 0 < f0.width * (2 * max_radius + padding) + padding)
    (h0h : 0 < f0.height * (2 * max_radius + padding) + padding)
    (hwrap : 65536 ≤ f0.width * (2 * max_radius + padding) + padding
      ∨ 65536 ≤ f0.height * (2 * max_radius + padding) + padding)
    (hread : ∀ df ∈ f0 :: rest, f0.width * f0.height ≤ df.buffer.length) :
    (write_circles_gif (f0 :: rest) padding max_radius max_value delay).isSome = true ∧
    ∀ out ∈ write_circles_gif (f0 :: rest) padding max_radius max_value delay,
      out.width = (f0.width * (2 * max_radius + padding) + padding) % 65536 ∧
      out.height = (f0.height * (2 * max_radius + padding) + padding) % 65536 ∧
      (out.width, out.height)
        ≠ (f0.width * (2 * max_radius + padding) + padding,
           f0.height * (2 * max_radius + padding) + padding) ∧
      ∀ of ∈ out.frames,
        of.width = (f0.width * (2 * max_radius + padding) + padding) % 65536 ∧
        of.height = (f0.height * (2 * max_radius + padding) + padding) % 65536 ∧
        of.width * of.height ≠ of.buffer.length := by
  set tw := f0.width * (2 * max_radius + padding) + padding with htww
  set th := f0.height * (2 * max_radius + padding) + padding with hthh
  have hmodW : (tw % 4294967296) % 65536 = tw % 65536 := by
    rw [Nat.mod_eq_of_lt htw]
  have hmodH : (th % 4294967296) % 65536 = th % 65536 := by
    rw [Nat.mod_eq_of_lt hth]
  have hprod : (tw % 65536) * (th % 65536) ≠ tw * th := by
    have haw : tw % 65536 ≤ tw := Nat.mod_le _ _
    have hah : th % 65536 ≤ th := Nat.mod_le _ _
    rcases hwrap with hwl | hwr
    · have hlt : tw % 65536 < tw := lt_of_lt_of_le (Nat.mod_lt _ (by omega)) hwl
      have : (tw % 65536) * (th % 65536) < tw * th :=
        lt_of_le_of_lt (Nat.mul_le_mul_left _ hah)
          ((Nat.mul_lt_mul_right h0h).mpr hlt)
      omega
    · have hlt : th % 65536 < th := lt_of_lt_of_le (Nat.mod_lt _ (by omega)) hwr
      have : (tw % 65536) * (th % 65536) < tw * th :=
        lt_of_le_of_lt (Nat.mul_le_mul_right _ haw)
          ((Nat.mul_lt_mul_left h0w).mpr hlt)
      omega
  rw [write_circles_gif_eq_some f0 rest padding max_radius max_value delay
    (by rw [Nat.mod_eq_of_lt htw]; exact h0w)
    (by rw [Nat.mod_eq_of_lt hth]; exact h0h)
    (by rw [Nat.mod_eq_of_lt htw, Nat.mod_eq_of_lt hth]; exact hsz) hread]
  refine ⟨rfl, ?_⟩
  intro out hout
  rw [Option.mem_def] at hout
  obtain rfl : _ = out := Option.some.inj hout
  refine ⟨hmodW, hmodH, ?_, ?_⟩
  · intro hpair
    rw [Prod.mk.injEq] at hpair
    obtain ⟨h1, h2⟩ := hpair
    dsimp only at h1 h2
    rw [hmodW] at h1
    rw [hmodH] at h2
    have hm1 : tw % 65536 < 65536 := Nat.mod_lt _ (by omega)
    have hm2 : th % 65536 < 65536 := Nat.mod_lt _ (by omega)
    omega
  · intro of hof
    rw [List.mem_map] at hof
    obtain ⟨df, _, rfl⟩ := hof
    refine ⟨hmodW, hmodH, ?_⟩
    dsimp only
    rw [hmodW, hmodH, draw_frame_total_length, Nat.mod_eq_of_lt htw,
      Nat.mod_eq_of_lt hth, Nat.mod_eq_of_lt hsz]
    exact hprod

/-- Witness for C10: a 1×0 grid with radius 32768 and padding 1
(true canvas 65538 × 1; recorded 2 × 1). -/
theorem c10_u16_wrap_witness :
    (⟨1, 0, []⟩ : DotFrame).width * (2 * 32768 + 1) + 1 < 4294967296 ∧
    (⟨1, 0, []⟩ : DotFrame).height * (2 * 32768 + 1) + 1 < 4294967296 ∧
    ((⟨1, 0, []⟩ : DotFrame).width * (2 * 32768 + 1) + 1)
      * ((⟨1, 0, []⟩ : DotFrame).height * (2 * 32768 + 1) + 1) < 4294967296 ∧
    0 < (⟨1, 0, []⟩ : DotFrame).width * (2 * 32768 + 1) + 1 ∧
    0 < (⟨1, 0, []⟩ : DotFrame).height * (2 * 32768 + 1) + 1 ∧
    (65536 ≤ (⟨1, 0, []⟩ : DotFrame).width * (2 * 32768 + 1) + 1
      ∨ 65536 ≤ (⟨1, 0, []⟩ : DotFrame).height * (2 * 32768 + 1) + 1) ∧
    (∀ df ∈ [(⟨1, 0, []⟩ : DotFrame)],
      (⟨1, 0, []⟩ : DotFrame).width * (⟨1, 0, []⟩ : DotFrame).height
        ≤ df.buffer.length) ∧
    ((write_circles_gif [⟨1, 0, []⟩] 1 32768 1 5).isSome = true ∧
    ∀ out ∈ write_circles_gif [⟨1, 0, []⟩] 1 32768 1 5,
      out.width = ((⟨1, 0, []⟩ : DotFrame).width * (2 * 32768 + 1) + 1) % 65536 ∧
      out.height = ((⟨1, 0, []⟩ : DotFrame).height * (2 * 32768 + 1) + 1) % 65536 ∧
      (out.width, out.height)
        ≠ ((⟨1, 0, []⟩ : DotFrame).width * (2 * 32768 + 1) + 1,
           (⟨1, 0, []⟩ : DotFrame).height * (2 * 32768 + 1) + 1) ∧
      ∀ of ∈ out.frames,
        of.width = ((⟨1, 0, []⟩ : DotFrame).width * (2 * 32768 + 1) + 1) % 65536 ∧
        of.height = ((⟨1, 0, []⟩ : DotFrame).height * (2 * 32768 + 1) + 1) % 65536 ∧
        of.width * of.height ≠ of.buffer.length) :=
  ⟨by decide, by decide, by decide, by decide, by decide, by decide, by decide,
    c10_u16_wrap ⟨1, 0, []⟩ [] 1 32768 1 5 (by decide) (by decide) (by decide)
      (by decide) (by decide) (by decide) (by decide)⟩

/-! ## Claim C9: the all-transparent degenerate input -/

/-- The default key sends any pixel with alpha below 128 to 0. -/
lemma defaultKey_transparent (px : ℕ × ℕ × ℕ × ℕ) (h : px.2.2.2 < 128) :
    defaultKey px = 0 := by
  unfold defaultKey
  rw [if_pos h]

/-- A key that vanishes on every pixel of the frame yields cell value
0. -/
lemma blockValue_key_zero (frame : GifFrame) (block_size x y : ℕ)
    (key_func : ℕ × ℕ × ℕ × ℕ → ℕ)
    (hkey : ∀ px ∈ frame.buffer, key_func px = 0) :
    blockValue frame block_size x y key_func = 0 := by
  have hinv : (blockTotalCount frame block_size x y key_func).1 = 0 := by
    unfold blockTotalCount
    refine foldl_preserve (fun tc : ℕ × ℕ => tc.1 = 0) _ _ _ rfl ?_
    intro tc dy _ htc
    refine foldl_preserve (fun tc : ℕ × ℕ => tc.1 = 0) _ _ _ htc ?_
    intro tc2 dx _ htc2
    dsimp only
    split
    · exact htc2
    · split
      · exact htc2
      · rename_i hin hidx
        have hlt : (y + dy) * frame.width + (x + dx) < frame.buffer.length :=
          Nat.lt_of_not_le hidx
        have hget : frame.buffer.getD ((y + dy) * frame.width + (x + dx)) (0, 0, 0, 0)
            ∈ frame.buffer := by
          rw [List.getD_eq_getElem?_getD, List.getElem?_eq_getElem hlt]
          exact List.getElem_mem hlt
        rw [htc2, hkey _ hget]
  unfold blockValue
  split
  · rw [hinv, Nat.zero_div]
  · rfl

/-- The buffer produced by `convert_frame` has exactly one entry per
grid cell. -/
lemma convert_frame_buffer_length (frame : GifFrame) (block_size : ℕ)
    (key_func : ℕ × ℕ × ℕ × ℕ → ℕ) :
    (convert_frame frame block_size key_func).buffer.length
      = ((frame.height + block_size - 1) / block_size)
        * ((frame.width + block_size - 1) / block_size) := by
  show ((step_by frame.height block_size).flatMap _).length = _
  rw [length_flatMap_const _ _ ((frame.width + block_size - 1) / block_size)
    (fun y _ => by simp [length_step_by]), length_step_by]

/-- Reading any position of an all-zero buffer (with default 0) gives
0. -/
lemma getD_zero_of_all_zero (l : List ℕ) (h : ∀ v ∈ l, v = 0) (i : ℕ) :
    l.getD i 0 = 0 := by
  rcases Nat.lt_or_ge i l.length with hi | hi
  · rw [List.getD_eq_getElem?_getD, List.getElem?_eq_getElem hi]
    exact h _ (List.getElem_mem hi)
  · rw [List.getD_eq_getElem?_getD, List.getElem?_eq_none hi]
    rfl

/-- The maximum of a nonempty all-zero list is `some 0`. -/
lemma max?_all_zero (l : List ℕ) (hne : l ≠ []) (h : ∀ v ∈ l, v = 0) :
    l.max? = some 0 := by
  cases l with
  | nil => exact absurd rfl hne
  | cons a t =>
    rw [List.max?_cons']
    have ha : a = 0 := h a (List.mem_cons_self a t)
    subst ha
    have : t.foldl max 0 = 0 := by
      refine foldl_preserve (fun v : ℕ => v = 0) _ _ _ rfl ?_
      intro v u hu hv
      rw [hv, h u (List.mem_cons_of_mem _ hu)]
      exact Nat.max_self 0
    rw [this]

/-- With intensity 0 the circle degenerates to its center pixel. -/
lemma in_circle_zero_iff (padding max_radius max_value row col x y : ℕ) :
    in_circle padding max_radius max_value 0 row col x y
      ↔ x = center padding max_radius col ∧ y = center padding max_radius row := by
  unfold in_circle
  have h0 : radius 0 max_value max_radius = 0 := by
    unfold radius
    simp
  rw [h0]
  constructor
  · intro h
    have hx2 : ((x : ℚ) - ((center padding max_radius col : ℕ) : ℚ)) ^ 2 = 0 := by
      have := sq_nonneg ((x : ℚ) - ((center padding max_radius col : ℕ) : ℚ))
      have := sq_nonneg ((y : ℚ) - ((center padding max_radius row : ℕ) : ℚ))
      nlinarith [h]
    have hy2 : ((y : ℚ) - ((center padding max_radius row : ℕ) : ℚ)) ^ 2 = 0 := by
      have := sq_nonneg ((x : ℚ) - ((center padding max_radius col : ℕ) : ℚ))
      have := sq_nonneg ((y : ℚ) - ((center padding max_radius row : ℕ) : ℚ))
      nlinarith [h]
    have hx : (x : ℚ) = ((center padding max_radius col : ℕ) : ℚ) := by
      have := pow_eq_zero_iff (n := 2) (by omega) |>.mp hx2
      linarith [sub_eq_zero.mp this]
    have hy : (y : ℚ) = ((center padding max_radius row : ℕ) : ℚ) := by
      have := pow_eq_zero_iff (n := 2) (by omega) |>.mp hy2
      linarith [sub_eq_zero.mp this]
    exact ⟨by exact_mod_cast hx, by exact_mod_cast hy⟩
  · rintro ⟨rfl, rfl⟩
    simp

/-- With at least one pixel of padding or radius, every cell center
lies strictly inside the canvas. -/
lemma center_lt (padding max_radius idx gw : ℕ) (hidx : idx < gw)
    (hpr : 1 ≤ padding + max_radius) :
    center padding max_radius idx < gw * (2 * max_radius + padding) + padding := by
  unfold center
  have h1 : idx * (2 * max_radius + padding)
      ≤ (gw - 1) * (2 * max_radius + padding) :=
    Nat.mul_le_mul_right _ (by omega)
  have h2 : (gw - 1) * (2 * max_radius + padding)
      = gw * (2 * max_radius + padding) - (2 * max_radius + padding) := by
    rw [Nat.sub_mul, Nat.one_mul]
  have h3 : 2 * max_radius + padding ≤ gw * (2 * max_radius + padding) :=
    Nat.le_mul_of_pos_left _ (by omega)
  omega

set_option maxRecDepth 4096 in
/-- Counterexample to C9 as stated: for a one-frame animation whose
single pixel is fully transparent (block size 1, default padding 2 and
radius 8), the computed global maximum intensity is `0` — the
`unwrap_or(1)` fallback does not fire, contrary to the claimed default
of 1 — and the output frame does contain a `DOT` pixel (each
zero-radius circle still paints its center pixel). -/
theorem c9_counterexample :
    max_value (convert_to_dots [⟨1, 1, [(255, 255, 255, 0)]⟩] 1 defaultKey) = 0 ∧
    (run_pipeline [⟨1, 1, [(255, 255, 255, 0)]⟩] 1 2 8 5).isSome = true ∧
    ∃ of ∈ (run_pipeline [⟨1, 1, [(255, 255, 255, 0)]⟩] 1 2 8 5).elim []
        GifOutput.frames,
      (1 : ℕ) ∈ of.buffer := by decide

/-- On an all-zero cell buffer the painted frame's `DOT` pixels are
exactly the grid-cell centers. -/
lemma draw_frame_total_zero_char (gw gh padding max_radius max_value : ℕ)
    (cells : List ℕ) (hzero : ∀ v ∈ cells, v = 0)
    (hpr : 1 ≤ padding + max_radius) (hgw1 : 1 ≤ gw) (hgh1 : 1 ≤ gh)
    (hsz : (gw * (2 * max_radius + padding) + padding)
      * (gh * (2 * max_radius + padding) + padding) < 4294967296) :
    ∀ j : ℕ, j < (gw * (2 * max_radius + padding) + padding)
        * (gh * (2 * max_radius + padding) + padding) →
      ((draw_frame_total (gw * (2 * max_radius + padding) + padding)
          (gh * (2 * max_radius + padding) + padding)
          gw gh padding max_radius max_value cells)[j]? = some 1
        ↔ ∃ row < gh, ∃ col < gw,
            j = center padding max_radius row
                * (gw * (2 * max_radius + padding) + padding)
              + center padding max_radius col) := by
  have h21 : 1 ≤ 2 * max_radius + padding := by omega
  have htw0 : 0 < gw * (2 * max_radius + padding) + padding := by
    have := Nat.mul_le_mul hgw1 h21
    omega
  have hth0 : 0 < gh * (2 * max_radius + padding) + padding := by
    have := Nat.mul_le_mul hgh1 h21
    omega
  obtain ⟨hlen, hchar⟩ := draw_frame_total_char
    (gw * (2 * max_radius + padding) + padding)
    (gh * (2 * max_radius + padding) + padding)
    gw gh padding max_radius max_value cells htw0 hth0 hsz
  intro j hj
  have hcov : covered gw gh padding max_radius max_value cells
      (j % (gw * (2 * max_radius + padding) + padding))
      (j / (gw * (2 * max_radius + padding) + padding))
      ↔ ∃ row < gh, ∃ col < gw,
          j = center padding max_radius row
              * (gw * (2 * max_radius + padding) + padding)
            + center padding max_radius col := by
    unfold covered
    constructor
    · rintro ⟨row, hrow, col, hcol, hcirc⟩
      rw [getD_zero_of_all_zero cells hzero, in_circle_zero_iff] at hcirc
      obtain ⟨hx, hy⟩ := hcirc
      refine ⟨row, hrow, col, hcol, ?_⟩
      calc j = (gw * (2 * max_radius + padding) + padding)
              * (j / (gw * (2 * max_radius + padding) + padding))
            + j % (gw * (2 * max_radius + padding) + padding) :=
            (Nat.div_add_mod _ _).symm
        _ = center padding max_radius row
              * (gw * (2 * max_radius + padding) + padding)
            + center padding max_radius col := by
            rw [← hx, ← hy]
            ring
    · rintro ⟨row, hrow, col, hcol, rfl⟩
      have hcx : center padding max_radius col
          < gw * (2 * max_radius + padding) + padding :=
        center_lt padding max_radius col gw hcol hpr
      have hmod : (center padding max_radius row
            * (gw * (2 * max_radius + padding) + padding)
          + center padding max_radius col)
            % (gw * (2 * max_radius + padding) + padding)
          = center padding max_radius col := by
        rw [Nat.add_comm, Nat.mul_comm, Nat.add_mul_mod_self_left,
          Nat.mod_eq_of_lt hcx]
      have hdiv : (center padding max_radius row
            * (gw * (2 * max_radius + padding) + padding)
          + center padding max_radius col)
            / (gw * (2 * max_radius + padding) + padding)
          = center padding max_radius row := by
        rw [Nat.add_comm, Nat.mul_comm, Nat.add_mul_div_left _ _ htw0,
          Nat.div_eq_of_lt hcx, Nat.zero_add]
      refine ⟨row, hrow, col, hcol, ?_⟩
      rw [getD_zero_of_all_zero cells hzero, in_circle_zero_iff, hmod, hdiv]
      exact ⟨rfl, rfl⟩
  constructor
  · intro h1
    by_contra hnc
    rw [← hcov] at hnc
    rw [(hchar j hj).2 hnc] at h1
    exact absurd (Option.some.inj h1) (by omega)
  · intro hex
    exact (hchar j hj).1 (hcov.mpr hex)

/-- Claim C9, amended: a one-frame animation whose pixels all have
alpha below 128 yields an all-zero `IntensityFrame`; the computed
global maximum intensity is `0`, not the claimed fallback of 1 (the
`unwrap_or(1)` fires only when there are no cells at all; division by
zero is instead prevented by the `max_value.max(1)` divisor); every
circle radius collapses to 0; and the written frame's `DOT` pixels are
exactly the grid-cell centers — one single-pixel dot per cell — rather
than no dots at all. -/
theorem c9_degenerate (W H : ℕ) (pix : List (ℕ × ℕ × ℕ × ℕ))
    (b padding max_radius delay : ℕ)
    (hb : 1 ≤ b) (hW : 0 < W) (hH : 0 < H) (hW16 : W < 65536) (hH16 : H < 65536)
    (htr : ∀ px ∈ pix, px.2.2.2 < 128)
    (hpr : 1 ≤ padding + max_radius)
    (htw32 : ((W + b - 1) / b) * (2 * max_radius + padding) + padding < 4294967296)
    (hth32 : ((H + b - 1) / b) * (2 * max_radius + padding) + padding < 4294967296)
    (hsz : (((W + b - 1) / b) * (2 * max_radius + padding) + padding)
      * (((H + b - 1) / b) * (2 * max_radius + padding) + padding) < 4294967296) :
    (∀ df ∈ convert_to_dots [⟨W, H, pix⟩] b defaultKey, ∀ v ∈ df.buffer, v = 0) ∧
    max_value (convert_to_dots [⟨W, H, pix⟩] b defaultKey) = 0 ∧
    radius 0 (max_value (convert_to_dots [⟨W, H, pix⟩] b defaultKey)) max_radius = 0 ∧
    (run_pipeline [⟨W, H, pix⟩] b padding max_radius delay).isSome = true ∧
    ∀ out ∈ run_pipeline [⟨W, H, pix⟩] b padding max_radius delay,
      ∀ of ∈ out.frames, ∀ j : ℕ,
        j < (((W + b - 1) / b) * (2 * max_radius + padding) + padding)
          * (((H + b - 1) / b) * (2 * max_radius + padding) + padding) →
        (of.buffer[j]? = some 1 ↔
          ∃ row < (H + b - 1) / b, ∃ col < (W + b - 1) / b,
            j = center padding max_radius row
                * (((W + b - 1) / b) * (2 * max_radius + padding) + padding)
              + center padding max_radius col) := by
  have hkey0 : ∀ px ∈ (⟨W, H, pix⟩ : GifFrame).buffer, defaultKey px = 0 :=
    fun px hpx => defaultKey_transparent px (htr px hpx)
  have hzero : ∀ v ∈ (convert_frame ⟨W, H, pix⟩ b defaultKey).buffer, v = 0 := by
    intro v hv
    have hvm : v ∈ (step_by (⟨W, H, pix⟩ : GifFrame).height b).flatMap (fun y =>
        (step_by (⟨W, H, pix⟩ : GifFrame).width b).map (fun x =>
          blockValue ⟨W, H, pix⟩ b x y defaultKey)) := hv
    rw [List.mem_flatMap] at hvm
    obtain ⟨y, _, hy⟩ := hvm
    rw [List.mem_map] at hy
    obtain ⟨x, _, rfl⟩ := hy
    exact blockValue_key_zero _ b x y defaultKey hkey0
  have hconv : convert_to_dots [⟨W, H, pix⟩] b defaultKey
      = [convert_frame ⟨W, H, pix⟩ b defaultKey] := rfl
  have hall : ∀ df ∈ convert_to_dots [⟨W, H, pix⟩] b defaultKey,
      ∀ v ∈ df.buffer, v = 0 := by
    rw [hconv]
    intro df hdf v hv
    have hd : df = convert_frame ⟨W, H, pix⟩ b defaultKey := List.mem_singleton.mp hdf
    subst hd
    exact hzero v hv
  have hgw1 : 1 ≤ (W + b - 1) / b := by
    rw [Nat.le_div_iff_mul_le (by omega : 0 < b)]
    omega
  have hgh1 : 1 ≤ (H + b - 1) / b := by
    rw [Nat.le_div_iff_mul_le (by omega : 0 < b)]
    omega
  have hcfw : (convert_frame ⟨W, H, pix⟩ b defaultKey).width = (W + b - 1) / b :=
    Nat.mod_eq_of_lt (lt_of_le_of_lt (ceil_div_le_self _ _ hb) hW16)
  have hcfh : (convert_frame ⟨W, H, pix⟩ b defaultKey).height = (H + b - 1) / b :=
    Nat.mod_eq_of_lt (lt_of_le_of_lt (ceil_div_le_self _ _ hb) hH16)
  have hlen : (convert_frame ⟨W, H, pix⟩ b defaultKey).buffer.length
      = ((H + b - 1) / b) * ((W + b - 1) / b) :=
    convert_frame_buffer_length _ _ _
  have hne : (convert_frame ⟨W, H, pix⟩ b defaultKey).buffer ≠ [] := by
    intro h0
    rw [h0] at hlen
    have h1 : 1 ≤ ((H + b - 1) / b) * ((W + b - 1) / b) := Nat.mul_le_mul hgh1 hgw1
    simp at hlen
    omega
  have hflat : (convert_to_dots [⟨W, H, pix⟩] b defaultKey).flatMap DotFrame.buffer
      = (convert_frame ⟨W, H, pix⟩ b defaultKey).buffer := by
    rw [hconv]
    simp
  have hmv : max_value (convert_to_dots [⟨W, H, pix⟩] b defaultKey) = 0 := by
    unfold max_value
    rw [hflat, max?_all_zero _ hne hzero]
    rfl
  have hrad : radius 0 (max_value (convert_to_dots [⟨W, H, pix⟩] b defaultKey))
      max_radius = 0 := by
    unfold radius
    simp
  have hread : ∀ df ∈ [convert_frame ⟨W, H, pix⟩ b defaultKey],
      (convert_frame ⟨W, H, pix⟩ b defaultKey).width
        * (convert_frame ⟨W, H, pix⟩ b defaultKey).height ≤ df.buffer.length := by
    intro df hdf
    have hd : df = convert_frame ⟨W, H, pix⟩ b defaultKey := List.mem_singleton.mp hdf
    subst hd
    rw [hcfw, hcfh, hlen, Nat.mul_comm]
  have hrp : run_pipeline [⟨W, H, pix⟩] b padding max_radius delay
      = write_circles_gif [convert_frame ⟨W, H, pix⟩ b defaultKey]
          padding max_radius 0 delay := by
    have hmv' : max_value [convert_frame ⟨W, H, pix⟩ b defaultKey] = 0 := by
      rw [← hconv]
      exact hmv
    show write_circles_gif (convert_to_dots [⟨W, H, pix⟩] b defaultKey)
        padding max_radius (max_value (convert_to_dots [⟨W, H, pix⟩] b defaultKey))
        delay = _
    rw [hconv, hmv']
  have h21 : 1 ≤ 2 * max_radius + padding := by omega
  have htw0 : 0 < ((W + b - 1) / b) * (2 * max_radius + padding) + padding := by
    have := Nat.mul_le_mul hgw1 h21
    omega
  have hth0 : 0 < ((H + b - 1) / b) * (2 * max_radius + padding) + padding := by
    have := Nat.mul_le_mul hgh1 h21
    omega
  have heqs := write_circles_gif_eq_some (convert_frame ⟨W, H, pix⟩ b defaultKey) []
    padding max_radius 0 delay
    (by rw [hcfw, Nat.mod_eq_of_lt htw32]; exact htw0)
    (by rw [hcfh, Nat.mod_eq_of_lt hth32]; exact hth0)
    (by rw [hcfw, hcfh, Nat.mod_eq_of_lt htw32, Nat.mod_eq_of_lt hth32]; exact hsz)
    hread
  rw [hcfw, hcfh] at heqs
  rw [Nat.mod_eq_of_lt htw32, Nat.mod_eq_of_lt hth32] at heqs
  refine ⟨hall, hmv, hrad, ?_, ?_⟩
  · rw [hrp, heqs]
    rfl
  · intro out hout of hof j hj
    rw [hrp, heqs, Option.mem_def] at hout
    have hout' : _ = out := Option.some.inj hout
    subst hout'
    have hofm : of ∈ [(convert_frame ⟨W, H, pix⟩ b defaultKey)].map (fun df =>
        ({ width := (((W + b - 1) / b) * (2 * max_radius + padding) + padding) % 65536
           height := (((H + b - 1) / b) * (2 * max_radius + padding) + padding) % 65536
           buffer := draw_frame_total
             (((W + b - 1) / b) * (2 * max_radius + padding) + padding)
             (((H + b - 1) / b) * (2 * max_radius + padding) + padding)
             ((W + b - 1) / b) ((H + b - 1) / b) padding max_radius 0 df.buffer
           delay := delay
           transparent := some 2 } : OutFrame)) := hof
    rw [List.map_singleton, List.mem_singleton] at hofm
    subst hofm
    exact draw_frame_total_zero_char ((W + b - 1) / b) ((H + b - 1) / b)
      padding max_radius 0 _ hzero hpr hgw1 hgh1 hsz j hj

/-- Witness for C9 (amended) at the 1×1 fully transparent frame, block
size 1, padding 2, radius 8 (a 20×20 canvas). -/
theorem c9_degenerate_witness :
    1 ≤ 1 ∧ 0 < 1 ∧ 1 < 65536 ∧
    (∀ px ∈ [((255, 255, 255, 0) : ℕ × ℕ × ℕ × ℕ)], px.2.2.2 < 128) ∧
    1 ≤ 2 + 8 ∧ 20 < 4294967296 ∧ 20 * 20 < 4294967296 ∧
    ((∀ df ∈ convert_to_dots [⟨1, 1, [(255, 255, 255, 0)]⟩] 1 defaultKey,
      ∀ v ∈ df.buffer, v = 0) ∧
    max_value (convert_to_dots [⟨1, 1, [(255, 255, 255, 0)]⟩] 1 defaultKey) = 0 ∧
    radius 0 (max_value (convert_to_dots [⟨1, 1, [(255, 255, 255, 0)]⟩] 1 defaultKey))
      8 = 0 ∧
    (run_pipeline [⟨1, 1, [(255, 255, 255, 0)]⟩] 1 2 8 5).isSome = true ∧
    ∀ out ∈ run_pipeline [⟨1, 1, [(255, 255, 255, 0)]⟩] 1 2 8 5,
      ∀ of ∈ out.frames, ∀ j : ℕ, j < 20 * 20 →
        (of.buffer[j]? = some 1 ↔
          ∃ row < 1, ∃ col < 1, j = center 2 8 row * 20 + center 2 8 col)) :=
  ⟨by decide, by decide, by decide, by decide, by decide, by decide, by decide,
    c9_degenerate 1 1 [(255, 255, 255, 0)] 1 2 8 5 (by decide) (by decide) (by decide)
      (by decide) (by decide) (by decide) (by decide) (by decide) (by decide) (by decide)⟩

end Pointillist
